import Mathlib

/-!
# Render and loading-state coordination of `src/lib/ui.js`

A shallow embedding of the launch-search UI: the DOM subtrees the module builds
and mutates, the loading-state manager (`setLoading`, `setNotLoading`), the
result renderer (`createSearchResults`) and the two asynchronous flows
(`searchAndRender`, `renderDetails`), followed by the properties proved of them.

An element reference obtained from `querySelector` is modelled by its position:
the first match in document order.  A mutation through such a reference rewrites
the tree at that position.  An `async` function is modelled by its synchronous
part up to the single `await`, and its continuation after it.

The form a flow is given is an element of its own or an element inside the
container.  In `setLoading`, `setNotLoading` and the events on a main region the
region and the form are two values: these describe a form that lies outside the
region, and what they say of the region holds wherever the form lies, since the
form is changed only in the `disabled` attribute of a button.  In
`searchAndRender` and `renderFrontpage` the form is a reference, which may point
into the container: the element at a path of child indices.  A mutation through
it rewrites the container at that path, and the path follows the element when a
sibling before it is removed.
-/

namespace Ui

/-! ## DOM trees -/

/-- A DOM node: a text node or an element with its attributes and child nodes. -/
inductive Node where
  | text (data : String)
  | element (tag : String) (attributes : List (String × String)) (children : List Node)

/-- An element, as held by a variable of the program: its tag, its attributes in
the order they were set, and its child nodes. -/
structure Element where
  tag : String
  attributes : List (String × String)
  children : List Node

/-- The element as a node of a tree. -/
def Element.toNode (e : Element) : Node :=
  .element e.tag e.attributes e.children

instance : Coe Element Node := ⟨Element.toNode⟩

/-- Splits the characters of an attribute value at white space (space, tab,
line feed, form feed, carriage return); `cur` holds the token being read,
reversed. -/
def splitTokens : List Char → List Char → List (List Char)
  | [], cur => if cur.isEmpty then [] else [cur.reverse]
  | c :: cs, cur =>
    if c.isWhitespace || c.toNat == 12 then
      (if cur.isEmpty then splitTokens cs [] else cur.reverse :: splitTokens cs [])
    else splitTokens cs (c :: cur)

/-- The class names of an element: the white-space separated tokens of its
`class` attribute. -/
def classList (attrs : List (String × String)) : List String :=
  match attrs.lookup "class" with
  | some v => (splitTokens v.data []).map String.mk
  | none => []

/-- The CSS selectors the module uses: `.c`, `t` and `t[a]`. -/
inductive Selector where
  | cls (c : String)
  | tag (t : String)
  | tagAttr (t a : String)

/-- Whether an element with the given tag and attributes is matched by the selector. -/
def Selector.matches : Selector → String → List (String × String) → Bool
  | .cls c, _, attrs => (classList attrs).contains c
  | .tag t, tg, _ => tg == t
  | .tagAttr t a, tg, attrs => tg == t && (attrs.lookup a).isSome

namespace Node

mutual
/-- First element in document order, among the node and its descendants, that
the selector matches. -/
def find (s : Selector) : Node → Option Element
  | .text _ => none
  | .element t a cs =>
    if s.matches t a then some ⟨t, a, cs⟩ else findList s cs
/-- First element in document order of a forest that the selector matches. -/
def findList (s : Selector) : List Node → Option Element
  | [] => none
  | n :: ns =>
    match find s n with
    | some r => some r
    | none => findList s ns
end

mutual
/-- Number of elements, among the node and its descendants, that the selector matches. -/
def count (s : Selector) : Node → Nat
  | .text _ => 0
  | .element t a cs => (if s.matches t a then 1 else 0) + countList s cs
/-- Number of elements of a forest that the selector matches. -/
def countList (s : Selector) : List Node → Nat
  | [] => 0
  | n :: ns => count s n + countList s ns
end

mutual
/-- Rewrites the first element in document order that the selector matches
(the node itself or a descendant) by `f`: `f` gives the nodes standing in its
place, none when the element is removed. An unmatched node is left as it is. -/
def alter (s : Selector) (f : Element → List Node) : Node → List Node
  | .text d => [.text d]
  | .element t a cs =>
    if s.matches t a then f ⟨t, a, cs⟩ else [.element t a (alterList s f cs)]
/-- Rewrites the first element in document order of a forest that the selector matches. -/
def alterList (s : Selector) (f : Element → List Node) : List Node → List Node
  | [] => []
  | n :: ns =>
    if (find s n).isSome then alter s f n ++ ns else n :: alterList s f ns
end

mutual
/-- The text of the node and its descendants, concatenated in document order. -/
def textContent : Node → String
  | .text d => d
  | .element _ _ cs => textContentList cs
/-- The concatenated text of a forest. -/
def textContentList : List Node → String
  | [] => ""
  | n :: ns => textContent n ++ textContentList ns
end

/-- Applies a mutation of an element to a node; a text node is left as it is. -/
def onElement (g : Element → Element) : Node → Node
  | .text d => .text d
  | .element t a cs => (g ⟨t, a, cs⟩).toNode

end Node

namespace Element

/-- Whether the element itself is matched by the selector. -/
def isMatch (s : Selector) (e : Element) : Bool :=
  s.matches e.tag e.attributes

/-- `e.querySelector(s)`: the first descendant of `e` matched by `s`, `none` for `null`. -/
def querySelector (e : Element) (s : Selector) : Option Element :=
  Node.findList s e.children

/-- Number of descendants of `e` matched by `s` (the length of `e.querySelectorAll(s)`). -/
def countAll (e : Element) (s : Selector) : Nat :=
  Node.countList s e.children

/-- `e.appendChild(c)` for a node `c` that is not yet in the tree. -/
def appendChild (e : Element) (c : Node) : Element :=
  { e with children := e.children ++ [c] }

/-- `const x = e.querySelector(s); if (x) x.remove();` -/
def removeFirst (e : Element) (s : Selector) : Element :=
  { e with children := Node.alterList s (fun _ => []) e.children }

/-- A mutation `g` of the element `e.querySelector(s)` when it is not `null`. -/
def updateFirst (e : Element) (s : Selector) (g : Element → Element) : Element :=
  { e with children := Node.alterList s (fun x => [(g x).toNode]) e.children }

/-- `setAttribute` on an attribute list: the value of an existing attribute is
replaced in place, a new attribute is added at the end. -/
def setAttr (k v : String) : List (String × String) → List (String × String)
  | [] => [(k, v)]
  | (k2, v2) :: rest => if k2 == k then (k2, v) :: rest else (k2, v2) :: setAttr k v rest

/-- `x.setAttribute(k, v)`. -/
def setAttribute (k v : String) (x : Element) : Element :=
  { x with attributes := setAttr k v x.attributes }

/-- `x.removeAttribute(k)`. -/
def removeAttribute (k : String) (x : Element) : Element :=
  { x with attributes := x.attributes.filter (fun p => !(p.1 == k)) }

/-- `x.hasAttribute(k)`. -/
def hasAttribute (k : String) (x : Element) : Bool :=
  (x.attributes.lookup k).isSome

/-- A mutation `g` of the last child of `e`, an element. -/
def updateLastChild (e : Element) (g : Element → Element) : Element :=
  match e.children.reverse with
  | [] => e
  | c :: rest => { e with children := rest.reverse ++ [c.onElement g] }

/-- The text of the element and its descendants, concatenated in document order. -/
def textContent (e : Element) : String :=
  Node.textContentList e.children

end Element

/-! ## References into a tree -/

/-- Whether the path `p` is an initial segment of the path `q`: the element at
`p` is the element at `q` or an ancestor of it. -/
def leads : List Nat → List Nat → Bool
  | [], _ => true
  | _ :: _, [] => false
  | i :: p, j :: q => i == j && leads p q

/-- The path one sibling further at its first step. -/
def shift : List Nat → List Nat
  | [] => []
  | i :: p => (i + 1) :: p

/-- The path of an element after the element at path `r` has been removed, for
an element that is not inside the removed one: a later sibling of the removed
element, and what is inside it, moves one place to the front. -/
def rebase : List Nat → List Nat → List Nat
  | i :: r, j :: p =>
    if r.isEmpty then (if i < j then (j - 1) :: p else j :: p)
    else if i = j then j :: rebase r p else j :: p
  | _, p => p

namespace Node

mutual
/-- The element at a path of child indices from the node; the empty path is the
node itself. -/
def getAt : List Nat → Node → Option Element
  | _, .text _ => none
  | [], .element t a cs => some ⟨t, a, cs⟩
  | i :: p, .element _ _ cs => getAtList i p cs
/-- The element at path `p` from the `i`-th node of a forest. -/
def getAtList : Nat → List Nat → List Node → Option Element
  | _, _, [] => none
  | 0, p, n :: _ => getAt p n
  | i + 1, p, _ :: ns => getAtList i p ns
end

mutual
/-- A mutation `g` of the element at a path from the node. -/
def modifyAt (g : Element → Element) : List Nat → Node → Node
  | _, .text d => .text d
  | [], .element t a cs => (g ⟨t, a, cs⟩).toNode
  | i :: p, .element t a cs => .element t a (modifyAtList g i p cs)
/-- A mutation `g` of the element at path `p` from the `i`-th node of a forest. -/
def modifyAtList (g : Element → Element) : Nat → List Nat → List Node → List Node
  | _, _, [] => []
  | 0, p, n :: ns => modifyAt g p n :: ns
  | i + 1, p, n :: ns => n :: modifyAtList g i p ns
end

mutual
/-- The path, from the node, of the first element in document order that the
selector matches. -/
def pathOf (s : Selector) : Node → Option (List Nat)
  | .text _ => none
  | .element t a cs => if s.matches t a then some [] else pathOfList s cs
/-- The path, from a forest, of the first element in document order that the
selector matches. -/
def pathOfList (s : Selector) : List Node → Option (List Nat)
  | [] => none
  | n :: ns =>
    match pathOf s n with
    | some p => some (0 :: p)
    | none => (pathOfList s ns).map shift
end

end Node

namespace Element

/-- The element at a path of child indices from `e`; the empty path is `e`. -/
def getAt (e : Element) (p : List Nat) : Option Element :=
  Node.getAt p e.toNode

/-- A mutation `g` of the element at a path from `e`. -/
def modifyAt (e : Element) (p : List Nat) (g : Element → Element) : Element :=
  match p with
  | [] => g e
  | i :: p => { e with children := Node.modifyAtList g i p e.children }

/-- The path of `e.querySelector(s)` from `e`. -/
def pathOf (e : Element) (s : Selector) : Option (List Nat) :=
  Node.pathOfList s e.children

end Element

/-- The form a flow is given: an element that is not in the container, or the
element of the container at a path. -/
inductive FormRef where
  | detached (form : Element)
  | attached (path : List Nat)

/-- The form as it is. -/
def FormRef.get (container : Element) : FormRef → Option Element
  | .detached form => some form
  | .attached path => container.getAt path

/-- A mutation `g` of the form, when a form is given. -/
def updateForm (container : Element) (g : Element → Element) :
    Option FormRef → Element × Option FormRef
  | none => (container, none)
  | some (.detached form) => (container, some (.detached (g form)))
  | some (.attached path) => (container.modifyAt path g, some (.attached path))

/-- `const x = e.querySelector(s); if (x) x.remove();` for the element `e` at
`path` of the container. The form, when it is the removed element or inside it,
leaves the container with it, as it is; otherwise its path follows it. -/
def removeIn (container : Element) (path : List Nat) (s : Selector)
    (searchForm : Option FormRef) : Element × Option FormRef :=
  match (container.getAt path).bind (fun e => e.pathOf s) with
  | none => (container, searchForm)
  | some r =>
    (container.modifyAt path (fun e => e.removeFirst s),
      match searchForm with
      | some (.attached p) =>
        if leads (path ++ r) p then (container.getAt p).map .detached
        else some (.attached (rebase (path ++ r) p))
      | other => other)

/-- Modelled from the spec: `el` of `./elements.js`, which is not among the
sources. The spec gives it as `build(tag, attributes, ...children) -> Element`,
a pure factory: the element has the given tag, the given attributes and the
given children in order, a string child standing for a text node. -/
def el (tag : String) (attributes : List (String × String)) (children : List Node) : Element :=
  ⟨tag, attributes, children⟩

/-! ## Records of the API collaborator -/

/-- The `status` field of a launch. -/
structure Status where
  name : String

/-- A launch record as returned by `getLaunch` and `searchLaunches`. -/
structure Launch where
  id : String
  name : String
  status : Status
  mission : String
  window_start : String
  window_end : String
  image : String

/-- How the promise of a collaborator call settles. -/
inductive Settled (α : Type) where
  | resolved (value : α)
  | rejected (reason : String)

/-- The `TypeError` raised by reading a property of `null`. -/
def typeError : String := "TypeError: Cannot read properties of null"

/-! ## The module -/

/-- `renderSearchForm(searchHandler, query)`: the search form. The submit
listener does not show in the tree. -/
def renderSearchForm (query : Option String) : Element :=
  el "form" [("class", "form")]
    [el "input" [("class", "input"), ("value", query.getD ""), ("name", "query")] [],
     el "button" [("class", "button")] [.text "Leit"]]

/-- The loading indicator built by `setLoading`. -/
def loadingEl : Element :=
  el "p" [("class", "loading")] [.text "Leita að niðurtstöðum..."]

/-- The error row, `noResultElement` of `createSearchResults` for `null` and of
`renderDetails`. -/
def errorRow : Element :=
  el "tr" [] [.text "Villa"]

/-- The row for an empty list of results, `noResultElement` of `createSearchResults`. -/
def emptyRow : Element :=
  el "tr" [] [.text "Engar niðurstöður"]

/-- The header row, `taflaHeader` of `createSearchResults`. -/
def taflaHeader : Element :=
  el "tr" [("class", "resultHeader")] [.text "Niðurstöður úr leit!"]

/-- `setLoading(parentElement, searchForm)`: adds the loading indicator unless
one is present, and disables the first button of the form when a form is given. -/
def setLoading (parentElement : Element) (searchForm : Option Element) : Element × Option Element :=
  let parentElement :=
    match parentElement.querySelector (.cls "loading") with
    | none => parentElement.appendChild loadingEl
    | some _ => parentElement
  match searchForm with
  | none => (parentElement, none)
  | some form =>
    (parentElement, some (form.updateFirst (.tag "button") (Element.setAttribute "disabled" "disabled")))

/-- `setNotLoading(parentElement, searchForm)`: removes the first loading
indicator and enables the first disabled button of the form when a form is given. -/
def setNotLoading (parentElement : Element) (searchForm : Option Element) : Element × Option Element :=
  let parentElement := parentElement.removeFirst (.cls "loading")
  match searchForm with
  | none => (parentElement, none)
  | some form =>
    (parentElement,
      some (form.updateFirst (.tagAttr "button" "disabled") (Element.removeAttribute "disabled")))

/-- The row built for one record in the loop of `createSearchResults`. -/
def resultRow (result : Launch) : Element :=
  el "td" [("class", "result")]
    [el "a" [("class", "name"), ("href", "")] [.text "Nafn: ", .text result.name, .text " ---- "],
     el "span" [("class", "status")] [.text "Staða: ", .text result.status.name, .text " ---- "],
     el "span" [("class", "mission")] [.text "Mission: ", .text result.mission]]

/-- `createSearchResults(results, query)`: `results` is `none` for `null`. The
error row is appended to the table for `null`, and the function goes on to read
`results.length`, which raises for `null`: the second `match` is that read. -/
def createSearchResults (results : Option (List Launch)) (_query : String) :
    Except String Element := do
  let tafla := el "table" [("class", "searchResults")] []
  let tafla :=
    match results with
    | none => tafla.appendChild errorRow
    | some _ => tafla
  let results ← match results with
    | none => throw typeError
    | some rs => pure rs
  let tafla := if results.length = 0 then tafla.appendChild emptyRow else tafla
  let tafla := tafla.appendChild taflaHeader
  return results.foldl (fun t result => t.appendChild (resultRow result)) tafla

/-- What a run of an asynchronous flow leaves behind: the container and the form
as mutated, the arguments of the collaborator calls made, the warnings logged,
and whether the promise of the flow is fulfilled or rejected. -/
structure Run where
  parentElement : Element
  searchForm : Option FormRef
  calls : List String
  warnings : List String
  result : Except String Unit

/-- The part of `searchAndRender` between locating `main` and the `await`:
removes the prior results subtree and enters the loading state. -/
def searchAndRender.before (mainElement : Element) (searchForm : Option Element) :
    Element × Option Element :=
  let mainElement := mainElement.removeFirst (.cls "searchResults")
  setLoading mainElement searchForm

/-- The part of `searchAndRender` after the `await` has resolved with `results`:
leaves the loading state, builds the results subtree and appends it. When
`createSearchResults` raises, the mutations made so far stay. -/
def searchAndRender.after (mainElement : Element) (searchForm : Option Element)
    (results : Option (List Launch)) (query : String) :
    (Element × Option Element) × Except String Unit :=
  let (mainElement, searchForm) := setNotLoading mainElement searchForm
  match createSearchResults results query with
  | .error e => ((mainElement, searchForm), .error e)
  | .ok resultsEl => ((mainElement.appendChild resultsEl, searchForm), .ok ())

/-- The mutation of the form by `setLoading`: the first button is disabled. -/
def disableButton (searchForm : Element) : Element :=
  searchForm.updateFirst (.tag "button") (Element.setAttribute "disabled" "disabled")

/-- The mutation of the form by `setNotLoading`: the first disabled button is enabled. -/
def enableButton (searchForm : Element) : Element :=
  searchForm.updateFirst (.tagAttr "button" "disabled") (Element.removeAttribute "disabled")

/-- `setLoading(parentElement, searchForm)` for a `parentElement` that is the
element of the container at a path, and a form that may be inside the container. -/
def setLoadingIn (container : Element) (parentElement : List Nat)
    (searchForm : Option FormRef) : Element × Option FormRef :=
  let container :=
    match (container.getAt parentElement).bind (fun e => e.querySelector (.cls "loading")) with
    | none => container.modifyAt parentElement (fun e => e.appendChild loadingEl)
    | some _ => container
  updateForm container disableButton searchForm

/-- `setNotLoading(parentElement, searchForm)` for a `parentElement` that is the
element of the container at a path, and a form that may be inside the container. -/
def setNotLoadingIn (container : Element) (parentElement : List Nat)
    (searchForm : Option FormRef) : Element × Option FormRef :=
  let (container, searchForm) := removeIn container parentElement (.cls "loading") searchForm
  updateForm container enableButton searchForm

/-- The part of `searchAndRender` between locating `main`, at path `mainElement`
of the container, and the `await`. -/
def searchAndRender.enter (parentElement : Element) (mainElement : List Nat)
    (searchForm : Option FormRef) : Element × Option FormRef :=
  let (parentElement, searchForm) :=
    removeIn parentElement mainElement (.cls "searchResults") searchForm
  setLoadingIn parentElement mainElement searchForm

/-- The part of `searchAndRender` after the `await` has resolved with `results`.
When `createSearchResults` raises, the mutations made so far stay. -/
def searchAndRender.leave (parentElement : Element) (mainElement : List Nat)
    (searchForm : Option FormRef) (results : Option (List Launch)) (query : String) :
    (Element × Option FormRef) × Except String Unit :=
  let (parentElement, searchForm) := setNotLoadingIn parentElement mainElement searchForm
  match createSearchResults results query with
  | .error e => ((parentElement, searchForm), .error e)
  | .ok resultsEl =>
    ((parentElement.modifyAt mainElement (fun e => e.appendChild resultsEl), searchForm), .ok ())

/-- `searchAndRender(parentElement, searchForm, query)` run to its end, the
promise of `searchLaunches(query)` settling as `settled`. `mainElement` is the
first `main` inside `parentElement`, held by its path. A rejection of the
awaited promise is raised at the `await`. -/
def searchAndRender (parentElement : Element) (searchForm : Option FormRef) (query : String)
    (settled : Settled (Option (List Launch))) : Run :=
  match parentElement.pathOf (.tag "main") with
  | none =>
    { parentElement := parentElement, searchForm := searchForm, calls := [],
      warnings := ["main element fannst ekki"], result := .ok () }
  | some mainElement =>
    let (parentElement, searchForm) :=
      searchAndRender.enter parentElement mainElement searchForm
    match settled with
    | .rejected reason =>
      { parentElement := parentElement, searchForm := searchForm, calls := [query],
        warnings := [], result := .error reason }
    | .resolved results =>
      let ((parentElement, searchForm), result) :=
        searchAndRender.leave parentElement mainElement searchForm results query
      { parentElement := parentElement, searchForm := searchForm, calls := [query],
        warnings := [], result := result }

/-- The state of `searchAndRender` while the `await` is pending: the container,
the form, and the query `searchLaunches` was called with. `none` when there is
no `main` and the function has returned. -/
def searchAndRender.pending (parentElement : Element) (searchForm : Option FormRef)
    (query : String) : Option (Element × Option FormRef × List String) :=
  match parentElement.pathOf (.tag "main") with
  | none => none
  | some mainElement =>
    let (parentElement, searchForm) :=
      searchAndRender.enter parentElement mainElement searchForm
    some (parentElement, searchForm, [query])

/-- The heading of the front page. -/
def frontpageHeading : Element :=
  el "h1" [("class", "header")] [.text "Geimskotaleitin 🚀"]

/-- The `main` element `renderFrontpage` builds from the heading and the search
form, `container` in the source. -/
def frontpageMain (query : Option String) : Element :=
  el "main" [] [frontpageHeading, renderSearchForm query]

/-- `renderFrontpage(parentElement, searchHandler, query)`; with a non-empty
query the search flow is started, its collaborator settling as `settled`. The
form is the second child of `container`, which is appended to `parentElement`
as its last child. -/
def renderFrontpage (parentElement : Element) (query : Option String)
    (settled : Settled (Option (List Launch))) : Run :=
  let searchForm := FormRef.attached [parentElement.children.length, 1]
  let container := frontpageMain query
  let parentElement := parentElement.appendChild container
  match query with
  | none =>
    { parentElement := parentElement, searchForm := some searchForm, calls := [],
      warnings := [], result := .ok () }
  | some q =>
    if q = "" then
      { parentElement := parentElement, searchForm := some searchForm, calls := [],
        warnings := [], result := .ok () }
    else searchAndRender parentElement (some searchForm) q settled

/-- The details container of `renderDetails` as first built. The attribute map
of the image is passed to `el` after the `img` element, as one more child of
`main`: `img` itself is built by `el('img')`. `stray` stands for the nodes `el`
adds for that map, which is neither a string nor an element. -/
def detailsContainer (stray : List Node) (result : Launch) : Element :=
  el "main" [("class", "detailMain")]
    (el "h1" [("class", "launchName")] [.text result.name] ::
      el "span" [("class", "startTime")] [.text result.window_start] ::
      el "span" [("class", "endTime")] [.text result.window_end] ::
      el "span" [("class", "resultName")] [.text result.name] ::
      el "span" [("class", "resultMissionName")] [.text result.mission] ::
      el "img" [] [] :: stray)

/-- The back-navigation element of `renderDetails`. -/
def backElement : Element :=
  el "div" [("class", "back")] [el "a" [("href", "/")] [.text "Til baka"]]

/-- `renderDetails(parentElement, id)` run to its end, the promise of
`getLaunch(id)` settling as `settled`. -/
def renderDetails (stray : List Node) (parentElement : Element) (id : String)
    (settled : Settled (Option Launch)) : Run :=
  let (parentElement, _) := setLoading parentElement none
  match settled with
  | .rejected reason =>
    { parentElement := parentElement, searchForm := none, calls := [id], warnings := [],
      result := .error reason }
  | .resolved result =>
    let (parentElement, _) := setNotLoading parentElement none
    match result with
    | none =>
      { parentElement := parentElement.appendChild errorRow, searchForm := none,
        calls := [id], warnings := [], result := .ok () }
    | some result =>
      let container := detailsContainer stray result
      let parentElement := parentElement.appendChild container
      let parentElement := parentElement.updateLastChild (fun c => c.appendChild backElement)
      { parentElement := parentElement, searchForm := none, calls := [id], warnings := [],
        result := .ok () }

/-! ## Invocations sharing one main region -/

/-- What happens on a main region shared by invocations of `searchAndRender`:
an invocation is started and runs up to its `await`, or the promise a pending
invocation awaits settles and the invocation runs to its end. -/
inductive Event where
  | submit (query : String)
  | settle (query : String) (settled : Settled (Option (List Launch)))

/-- The effect of one event on the main region and the form. An invocation whose
promise is rejected does nothing more. -/
def step (state : Element × Option Element) : Event → Element × Option Element
  | .submit _ => searchAndRender.before state.1 state.2
  | .settle q (.resolved results) => (searchAndRender.after state.1 state.2 results q).1
  | .settle _ (.rejected _) => state

/-- The main region and the form after a sequence of events. -/
def runEvents (state : Element × Option Element) (es : List Event) : Element × Option Element :=
  es.foldl step state

/-- Whether a sequence of events can happen: every settlement resumes an
invocation that is pending; `pending` holds the queries of the pending
invocations. Invocations may overlap and settle in any order. -/
def wellFormed : List String → List Event → Bool
  | _, [] => true
  | pending, .submit q :: es => wellFormed (q :: pending) es
  | pending, .settle q _ :: es => pending.contains q && wellFormed (pending.erase q) es

/-- Whether the invocations of a sequence of events do not overlap: an
invocation is started only when none is pending. -/
def sequential : Option String → List Event → Bool
  | _, [] => true
  | none, .submit q :: es => sequential (some q) es
  | some _, .submit _ :: _ => false
  | none, .settle _ _ :: _ => false
  | some p, .settle q _ :: es => p == q && sequential none es

/-- Whether the first button of the form carries the `disabled` attribute. -/
def buttonDisabled (searchForm : Option Element) : Bool :=
  match searchForm with
  | none => false
  | some form =>
    match form.querySelector (.tag "button") with
    | none => false
    | some button => button.hasAttribute "disabled"

/-- The main region while an invocation that started alone is pending: one
loading indicator and no results subtree. -/
def Busy (m : Element) : Prop :=
  m.countAll (.cls "loading") = 1 ∧ m.countAll (.cls "searchResults") = 0

/-- The main region holds a loading indicator or a results subtree, not both,
and not two of either. -/
def Exclusive (m : Element) : Prop :=
  m.countAll (.cls "loading") + m.countAll (.cls "searchResults") ≤ 1

/-- The elements `m` and `m2` hold as many loading indicators and as many
results subtrees as each other. -/
def SameCounts (m m2 : Element) : Prop :=
  m2.countAll (.cls "loading") = m.countAll (.cls "loading")
    ∧ m2.countAll (.cls "searchResults") = m.countAll (.cls "searchResults")

/-- The first button of `f2`, when there is one, has the attributes of the first
button of `f`, and `f2` has a button when `f` has one. -/
def SameButton (f f2 : Element) : Prop :=
  (f2.querySelector (.tag "button")).map (fun b => b.attributes)
    = (f.querySelector (.tag "button")).map (fun b => b.attributes)

/-! ## Sample data -/

/-- A launch record. -/
def falcon9 : Launch :=
  ⟨"42", "Falcon 9", ⟨"Success"⟩, "Starlink", "2023-01-01T10:00", "2023-01-01T11:00", "f9.png"⟩

/-- A page body holding the front page before any search. -/
def frontpageBody : Element :=
  el "body" [] [frontpageMain none]

/-- The results subtree of an earlier search that found nothing. -/
def priorResults : Element :=
  el "table" [("class", "searchResults")] [emptyRow, taflaHeader]

/-- The `main` of the front page after an earlier search: heading, form, results. -/
def searchedMain : Element :=
  (frontpageMain none).appendChild priorResults

/-- A page body holding the front page after an earlier search. The form is the
element at path `[0, 1]`. -/
def searchedBody : Element :=
  el "body" [] [searchedMain]

/-- A page body whose `main` holds two loading indicators. -/
def twoIndicators : Element :=
  el "body" [] [el "main" [] [loadingEl, loadingEl]]

/-- Two searches that overlap: the second is submitted while the first is
pending, and both resolve with a list. -/
def overlapping : List Event :=
  [.submit "Falcon", .submit "Atlas",
   .settle "Falcon" (.resolved (some [falcon9])), .settle "Atlas" (.resolved (some []))]

/-- The two overlapping searches, and a third search submitted after them. -/
def overlappingThenSubmit : List Event :=
  overlapping ++ [.submit "Delta"]

/-- Two searches one after the other, the second still pending. -/
def oneByOne : List Event :=
  [.submit "Falcon", .settle "Falcon" (.resolved (some [falcon9])), .submit "Atlas"]

/-! ## Lemmas on trees -/

namespace Node

mutual
theorem find_eq_none_iff (s : Selector) : ∀ n : Node, find s n = none ↔ count s n = 0
  | .text _ => by simp [find, count]
  | .element t a cs => by
    have ih := findList_eq_none_iff s cs
    by_cases h : s.matches t a <;> simp [find, count, h, ih]
theorem findList_eq_none_iff (s : Selector) :
    ∀ l : List Node, findList s l = none ↔ countList s l = 0
  | [] => by simp [findList, countList]
  | n :: ns => by
    have ih1 := find_eq_none_iff s n
    have ih2 := findList_eq_none_iff s ns
    cases hf : find s n with
    | none => simp [findList, countList, hf, ih2, ih1.mp hf]
    | some r =>
      have : count s n ≠ 0 := fun h0 => by rw [ih1.mpr h0] at hf; cases hf
      simp [findList, countList, hf, this]
end

theorem find_isSome_iff (s : Selector) (n : Node) :
    (find s n).isSome = true ↔ 0 < count s n := by
  rw [Nat.pos_iff_ne_zero, Ne, ← find_eq_none_iff, Option.isSome_iff_ne_none]

theorem findList_isSome_iff (s : Selector) (l : List Node) :
    (findList s l).isSome = true ↔ 0 < countList s l := by
  rw [Nat.pos_iff_ne_zero, Ne, ← findList_eq_none_iff, Option.isSome_iff_ne_none]

theorem countList_append (s : Selector) :
    ∀ l l2 : List Node, countList s (l ++ l2) = countList s l + countList s l2
  | [], l2 => by simp [countList]
  | n :: ns, l2 => by
    simp [countList, countList_append s ns l2, Nat.add_assoc]

theorem find_of_isMatch (s : Selector) (e : Element) (h : e.isMatch s = true) :
    find s e.toNode = some e := by
  simp only [Element.isMatch] at h
  simp [Element.toNode, find, h]

theorem findList_append_of_some (s : Selector) :
    ∀ (l l2 : List Node) (r : Element), findList s l = some r → findList s (l ++ l2) = some r
  | [], _, _, h => by simp [findList] at h
  | m :: ms, l2, r, h => by
    cases hm : find s m with
    | none =>
      simp [findList, hm] at h ⊢
      exact findList_append_of_some s ms l2 r h
    | some q =>
      simp [findList, hm] at h ⊢
      exact h

mutual
theorem alter_of_count_zero (s : Selector) (f : Element → List Node) :
    ∀ n : Node, count s n = 0 → alter s f n = [n]
  | .text _, _ => by simp [alter]
  | .element t a cs, h => by
    by_cases hm : s.matches t a
    · simp [count, hm] at h
    · simp [count, hm] at h
      simp [alter, hm, alterList_of_count_zero s f cs h]
theorem alterList_of_count_zero (s : Selector) (f : Element → List Node) :
    ∀ l : List Node, countList s l = 0 → alterList s f l = l
  | [], _ => by simp [alterList]
  | n :: ns, h => by
    simp [countList] at h
    have h1 := (find_eq_none_iff s n).mpr h.1
    simp [alterList, h1, alterList_of_count_zero s f ns h.2]
end

theorem alterList_append_of_count_zero (s : Selector) (f : Element → List Node) :
    ∀ l l2 : List Node, countList s l = 0 → alterList s f (l ++ l2) = l ++ alterList s f l2
  | [], l2, _ => by simp
  | n :: ns, l2, h => by
    simp [countList] at h
    have h1 := (find_eq_none_iff s n).mpr h.1
    simp [alterList, h1, alterList_append_of_count_zero s f ns l2 h.2]

theorem alterList_append_of_isSome (s : Selector) (f : Element → List Node) :
    ∀ l l2 : List Node, (findList s l).isSome = true →
      alterList s f (l ++ l2) = alterList s f l ++ l2
  | [], l2, h => by simp [findList] at h
  | n :: ns, l2, h => by
    by_cases hf : (find s n).isSome
    · simp [alterList, hf]
    · have hn : find s n = none := by simpa using hf
      simp [findList, hn] at h
      simp [alterList, hf, alterList_append_of_isSome s f ns l2 h]

mutual
theorem count_alter_remove_le (s s2 : Selector) :
    ∀ n : Node, countList s2 (alter s (fun _ => []) n) ≤ count s2 n
  | .text _ => by simp [alter, countList, count]
  | .element t a cs => by
    by_cases hm : s.matches t a
    · simp [alter, hm, countList]
    · have ih := countList_alter_remove_le s s2 cs
      simp [alter, hm, countList, count]
      exact ih
theorem countList_alter_remove_le (s s2 : Selector) :
    ∀ l : List Node, countList s2 (alterList s (fun _ => []) l) ≤ countList s2 l
  | [] => by simp [alterList]
  | n :: ns => by
    have ih1 := count_alter_remove_le s s2 n
    have ih2 := countList_alter_remove_le s s2 ns
    by_cases hf : (find s n).isSome
    · simp [alterList, hf, countList, countList_append]
      exact ih1
    · simp [alterList, hf, countList]
      simpa using ih2
end

mutual
theorem count_alter_remove_lt (s : Selector) :
    ∀ n : Node, 0 < count s n → countList s (alter s (fun _ => []) n) < count s n
  | .text _, h => by simp [count] at h
  | .element t a cs, h => by
    by_cases hm : s.matches t a
    · simp [alter, hm, countList, count]
    · simp [count, hm] at h
      have ih := countList_alter_remove_lt s cs h
      simp [alter, hm, countList, count]
      exact ih
theorem countList_alter_remove_lt (s : Selector) :
    ∀ l : List Node, 0 < countList s l →
      countList s (alterList s (fun _ => []) l) < countList s l
  | [], h => by simp [countList] at h
  | n :: ns, h => by
    by_cases hf : (find s n).isSome
    · have h1 := count_alter_remove_lt s n ((find_isSome_iff s n).mp hf)
      simp [alterList, hf, countList, countList_append]
      exact h1
    · have h0 : count s n = 0 := by
        have := (find_isSome_iff s n).not.mp hf
        omega
      simp [countList, h0] at h
      have ih := countList_alter_remove_lt s ns h
      simp [alterList, hf, countList, h0]
      simpa using ih
end

theorem countList_remove_eq_zero (s : Selector) (l : List Node) (h : countList s l ≤ 1) :
    countList s (alterList s (fun _ => []) l) = 0 := by
  rcases Nat.eq_zero_or_pos (countList s l) with h0 | hpos
  · have := countList_alter_remove_le s s l
    omega
  · have := countList_alter_remove_lt s l hpos
    omega

mutual
theorem find_isSome_alter (s s2 : Selector) (g : Element → Element)
    (hg : ∀ x, x.isMatch s = true → (g x).isMatch s2 = true) :
    ∀ n : Node, (find s n).isSome = true →
      (findList s2 (alter s (fun x => [(g x).toNode]) n)).isSome = true
  | .text _, h => by simp [find] at h
  | .element t a cs, h => by
    by_cases hm : s.matches t a
    · have h2 := find_of_isMatch s2 _ (hg ⟨t, a, cs⟩ (by simpa [Element.isMatch] using hm))
      simp [alter, hm, findList, h2]
    · simp [find, hm] at h
      have ih := findList_isSome_alter s s2 g hg cs h
      by_cases hm2 : s2.matches t a
      · simp [alter, hm, findList, find, hm2]
      · simp [alter, hm, findList, find, hm2]
        cases hc : findList s2 (alterList s (fun x => [(g x).toNode]) cs) with
        | none => simp [hc] at ih
        | some r => simp
theorem findList_isSome_alter (s s2 : Selector) (g : Element → Element)
    (hg : ∀ x, x.isMatch s = true → (g x).isMatch s2 = true) :
    ∀ l : List Node, (findList s l).isSome = true →
      (findList s2 (alterList s (fun x => [(g x).toNode]) l)).isSome = true
  | [], h => by simp [findList] at h
  | n :: ns, h => by
    by_cases hf : (find s n).isSome
    · have h1 := find_isSome_alter s s2 g hg n hf
      simp only [alterList, hf, if_true]
      rw [findList_isSome_iff, countList_append]
      rw [findList_isSome_iff] at h1
      omega
    · have hn : find s n = none := by simpa using hf
      simp [findList, hn] at h
      have ih := findList_isSome_alter s s2 g hg ns h
      simp only [alterList, hf]
      rw [findList_isSome_iff] at ih ⊢
      simp only [countList]
      omega
end

mutual
theorem count_zero_of_imp (s s2 : Selector)
    (hs : ∀ t a, s2.matches t a = true → s.matches t a = true) :
    ∀ n : Node, count s n = 0 → count s2 n = 0
  | .text _, _ => by simp [count]
  | .element t a cs, h => by
    by_cases hm : s.matches t a
    · simp [count, hm] at h
    · simp [count, hm] at h
      have hm2 : s2.matches t a = false := by
        cases h2 : s2.matches t a with
        | false => rfl
        | true => exact absurd (hs t a h2) hm
      simp [count, hm2, countList_zero_of_imp s s2 hs cs h]
theorem countList_zero_of_imp (s s2 : Selector)
    (hs : ∀ t a, s2.matches t a = true → s.matches t a = true) :
    ∀ l : List Node, countList s l = 0 → countList s2 l = 0
  | [], _ => by simp [countList]
  | n :: ns, h => by
    simp [countList] at h
    simp [countList, count_zero_of_imp s s2 hs n h.1, countList_zero_of_imp s s2 hs ns h.2]
end

mutual
theorem alter_alter (s s2 : Selector) (g h : Element → Element)
    (hs : ∀ t a, s2.matches t a = true → s.matches t a = true)
    (hg : ∀ x, x.isMatch s = true → (g x).isMatch s2 = true) :
    ∀ n : Node, alterList s2 (fun x => [(h x).toNode]) (alter s (fun x => [(g x).toNode]) n)
      = alter s (fun x => [(h (g x)).toNode]) n
  | .text _ => by simp [alter, alterList, find]
  | .element t a cs => by
    by_cases hm : s.matches t a
    · have h2 := hg ⟨t, a, cs⟩ (by simpa [Element.isMatch] using hm)
      have h3 := find_of_isMatch s2 _ h2
      simp only [alter, hm, if_true, alterList, h3, Option.isSome_some, List.append_nil]
      simp only [Element.isMatch] at h2
      simp [Element.toNode, alter, h2]
    · have ih := alterList_alter s s2 g h hs hg cs
      have hm2 : s2.matches t a = false := by
        cases h2 : s2.matches t a with
        | false => rfl
        | true => exact absurd (hs t a h2) hm
      simp only [alter, hm, alterList, find, hm2]
      by_cases hc : (findList s2 (alterList s (fun x => [(g x).toNode]) cs)).isSome
      · simp [hc, alter, hm2, ih]
      · have hn : findList s2 (alterList s (fun x => [(g x).toNode]) cs) = none := by
          simpa using hc
        have h0 := (findList_eq_none_iff s2 _).mp hn
        have := alterList_of_count_zero s2 (fun x => [(h x).toNode]) _ h0
        rw [ih] at this
        simp [hn, this]
theorem alterList_alter (s s2 : Selector) (g h : Element → Element)
    (hs : ∀ t a, s2.matches t a = true → s.matches t a = true)
    (hg : ∀ x, x.isMatch s = true → (g x).isMatch s2 = true) :
    ∀ l : List Node,
      alterList s2 (fun x => [(h x).toNode]) (alterList s (fun x => [(g x).toNode]) l)
        = alterList s (fun x => [(h (g x)).toNode]) l
  | [] => by simp [alterList]
  | n :: ns => by
    by_cases hf : (find s n).isSome
    · have h1 := find_isSome_alter s s2 g hg n hf
      have ih := alter_alter s s2 g h hs hg n
      simp only [alterList, hf, if_true]
      rw [alterList_append_of_isSome s2 _ _ ns h1, ih]
    · have hn : find s n = none := by simpa using hf
      have h0 := (find_eq_none_iff s n).mp hn
      have h20 := count_zero_of_imp s s2 hs n h0
      have hn2 := (find_eq_none_iff s2 n).mpr h20
      simp [alterList, hn, hn2, alterList_alter s s2 g h hs hg ns]
end

mutual
theorem find_alter (s : Selector) (g : Element → Element)
    (hg : ∀ x, x.isMatch s = true → (g x).isMatch s = true) :
    ∀ n : Node, findList s (alter s (fun x => [(g x).toNode]) n) = (find s n).map g
  | .text _ => by simp [alter, findList, find]
  | .element t a cs => by
    by_cases hm : s.matches t a
    · have h2 := find_of_isMatch s _ (hg ⟨t, a, cs⟩ (by simpa [Element.isMatch] using hm))
      simp only [alter, hm, if_true, findList, h2]
      simp [find, hm]
    · have ih := findList_alter s g hg cs
      simp only [alter, hm, findList, find]
      rw [ih]
      cases findList s cs <;> simp
theorem findList_alter (s : Selector) (g : Element → Element)
    (hg : ∀ x, x.isMatch s = true → (g x).isMatch s = true) :
    ∀ l : List Node, findList s (alterList s (fun x => [(g x).toNode]) l) = (findList s l).map g
  | [] => by simp [alterList, findList]
  | n :: ns => by
    have ih1 := find_alter s g hg n
    have ih2 := findList_alter s g hg ns
    cases hf : find s n with
    | none =>
      simp [alterList, hf, findList, ih2]
    | some r =>
      simp only [alterList, hf, Option.isSome_some, if_true, findList, Option.map_some']
      rw [hf] at ih1
      exact findList_append_of_some s _ ns _ ih1
end

mutual
theorem count_alter_update (s s2 : Selector) (g : Element → Element)
    (hg : ∀ x, x.isMatch s = true → (g x).isMatch s2 = true)
    (hc : ∀ x, (g x).children = x.children) :
    ∀ n : Node, count s2 n = 0 → (find s n).isSome = true →
      countList s2 (alter s (fun x => [(g x).toNode]) n) = 1
  | .text _, _, h => by simp [find] at h
  | .element t a cs, h0, h => by
    by_cases hm2 : s2.matches t a
    · simp [count, hm2] at h0
    · simp [count, hm2] at h0
      by_cases hm : s.matches t a
      · have h2 := hg ⟨t, a, cs⟩ (by simpa [Element.isMatch] using hm)
        have h3 := hc ⟨t, a, cs⟩
        simp only [Element.isMatch] at h2
        simp only at h3
        simp [alter, hm, countList, Element.toNode, count, h2, h3, h0]
      · simp [find, hm] at h
        have ih := countList_alter_update s s2 g hg hc cs h0 h
        simp [alter, hm, countList, count, hm2, ih]
theorem countList_alter_update (s s2 : Selector) (g : Element → Element)
    (hg : ∀ x, x.isMatch s = true → (g x).isMatch s2 = true)
    (hc : ∀ x, (g x).children = x.children) :
    ∀ l : List Node, countList s2 l = 0 → (findList s l).isSome = true →
      countList s2 (alterList s (fun x => [(g x).toNode]) l) = 1
  | [], _, h => by simp [findList] at h
  | n :: ns, h0, h => by
    simp [countList] at h0
    by_cases hf : (find s n).isSome
    · have ih := count_alter_update s s2 g hg hc n h0.1 hf
      simp [alterList, hf, countList_append, ih, h0.2]
    · have hn : find s n = none := by simpa using hf
      simp [findList, hn] at h
      have ih := countList_alter_update s s2 g hg hc ns h0.2 h
      simp [alterList, hn, countList, h0.1, ih]
end

end Node

namespace Node

mutual
theorem count_alter_same (s s2 : Selector) (g : Element → Element)
    (hg : ∀ x, (g x).isMatch s2 = x.isMatch s2)
    (hc : ∀ x, (g x).children = x.children) :
    ∀ n : Node, countList s2 (alter s (fun x => [(g x).toNode]) n) = count s2 n
  | .text _ => by simp [alter, countList, count]
  | .element t a cs => by
    by_cases hm : s.matches t a
    · have h2 := hg ⟨t, a, cs⟩
      have h3 := hc ⟨t, a, cs⟩
      simp only [Element.isMatch] at h2
      simp only at h3
      simp [alter, hm, countList, Element.toNode, count, h2, h3]
    · have ih := countList_alter_same s s2 g hg hc cs
      simp [alter, hm, countList, count, ih]
theorem countList_alter_same (s s2 : Selector) (g : Element → Element)
    (hg : ∀ x, (g x).isMatch s2 = x.isMatch s2)
    (hc : ∀ x, (g x).children = x.children) :
    ∀ l : List Node, countList s2 (alterList s (fun x => [(g x).toNode]) l) = countList s2 l
  | [] => by simp [alterList]
  | n :: ns => by
    by_cases hf : (find s n).isSome
    · have ih := count_alter_same s s2 g hg hc n
      simp [alterList, hf, countList_append, ih, countList]
    · have hn : find s n = none := by simpa using hf
      have ih := countList_alter_same s s2 g hg hc ns
      simp [alterList, hn, countList, ih]
end

end Node

/-! ## Lemmas on attributes and elements -/

namespace Element

theorem lookup_setAttr (k v : String) :
    ∀ a : List (String × String), (setAttr k v a).lookup k = some v
  | [] => by simp [setAttr, List.lookup]
  | (k2, v2) :: rest => by
    by_cases h : k2 = k
    · subst h; simp [setAttr, List.lookup]
    · have h2 : (k == k2) = false := by simpa using fun e : k = k2 => h e.symm
      simp [setAttr, h, List.lookup, h2, lookup_setAttr k v rest]

theorem setAttr_setAttr (k v : String) :
    ∀ a : List (String × String), setAttr k v (setAttr k v a) = setAttr k v a
  | [] => by simp [setAttr]
  | (k2, v2) :: rest => by
    by_cases h : k2 = k
    · subst h; simp [setAttr]
    · simp [setAttr, h, setAttr_setAttr k v rest]

theorem lookup_filter_ne (k : String) :
    ∀ a : List (String × String), (a.filter (fun p => !(p.1 == k))).lookup k = none
  | [] => by simp [List.lookup]
  | (k2, v2) :: rest => by
    by_cases h : k2 = k
    · subst h
      have h3 : (!(k2 == k2)) = false := by simp
      simp only [List.filter, h3]
      exact lookup_filter_ne k2 rest
    · have h2 : (k == k2) = false := by simpa using fun e : k = k2 => h e.symm
      have h3 : (!(k2 == k)) = true := by simpa using h
      simp only [List.filter, h3, List.lookup, h2]
      exact lookup_filter_ne k rest

theorem setAttribute_idem (k v : String) (x : Element) :
    setAttribute k v (setAttribute k v x) = setAttribute k v x := by
  simp [setAttribute, setAttr_setAttr]

theorem hasAttribute_setAttribute (k v : String) (x : Element) :
    (setAttribute k v x).hasAttribute k = true := by
  simp [hasAttribute, setAttribute, lookup_setAttr]

theorem hasAttribute_removeAttribute (k : String) (x : Element) :
    (removeAttribute k x).hasAttribute k = false := by
  simp [hasAttribute, removeAttribute, lookup_filter_ne]

theorem isMatch_tag_setAttribute (t k v : String) (x : Element)
    (h : x.isMatch (.tag t) = true) : (setAttribute k v x).isMatch (.tag t) = true := by
  simpa [isMatch, setAttribute, Selector.matches] using h

theorem isMatch_tagAttr_setAttribute (t k v : String) (x : Element)
    (h : x.isMatch (.tag t) = true) : (setAttribute k v x).isMatch (.tagAttr t k) = true := by
  simp only [isMatch, Selector.matches, beq_iff_eq] at h
  simp [isMatch, setAttribute, Selector.matches, h, lookup_setAttr]

end Element

/-! ## Lemmas on the module -/

theorem foldl_appendChild (rs : List Launch) :
    ∀ t : Element, rs.foldl (fun t result => t.appendChild (resultRow result)) t
      = { t with children := t.children ++ rs.map (fun r => (resultRow r).toNode) } := by
  induction rs with
  | nil => intro t; simp
  | cons r rs ih =>
    intro t
    simp only [List.foldl, ih]
    simp [Element.appendChild]

theorem createSearchResults_null (q : String) :
    createSearchResults none q = .error typeError := rfl

theorem createSearchResults_empty (q : String) :
    createSearchResults (some []) q
      = .ok (el "table" [("class", "searchResults")] [emptyRow.toNode, taflaHeader.toNode]) := rfl

theorem createSearchResults_cons (r : Launch) (rs : List Launch) (q : String) :
    createSearchResults (some (r :: rs)) q
      = .ok (el "table" [("class", "searchResults")]
          (taflaHeader.toNode :: (r :: rs).map (fun r => (resultRow r).toNode))) := by
  simp only [createSearchResults, bind, Except.bind, pure, Except.pure]
  rw [foldl_appendChild]
  simp [Element.appendChild, el]

theorem countList_rows (s : Selector) (h : ∀ r, Node.count s (resultRow r).toNode = 0) :
    ∀ rs : List Launch, Node.countList s (rs.map (fun r => (resultRow r).toNode)) = 0
  | [] => rfl
  | r :: rs => by simp [Node.countList, h r, countList_rows s h rs]

theorem count_resultRow_loading (r : Launch) :
    Node.count (.cls "loading") (resultRow r).toNode = 0 := rfl

theorem count_resultRow_searchResults (r : Launch) :
    Node.count (.cls "searchResults") (resultRow r).toNode = 0 := rfl

theorem count_resultRow_resultHeader (r : Launch) :
    Node.count (.cls "resultHeader") (resultRow r).toNode = 0 := rfl

/-- The table `createSearchResults` returns is one results subtree and holds no
loading indicator. -/
theorem count_createSearchResults (results : Option (List Launch)) (q : String)
    (table : Element) (h : createSearchResults results q = .ok table) :
    Node.count (.cls "searchResults") table.toNode = 1
      ∧ Node.count (.cls "loading") table.toNode = 0 := by
  cases results with
  | none => rw [createSearchResults_null] at h; cases h
  | some rs =>
    cases rs with
    | nil =>
      rw [createSearchResults_empty] at h
      cases h
      exact ⟨rfl, rfl⟩
    | cons r rs =>
      rw [createSearchResults_cons] at h
      cases h
      have h1 := countList_rows _ count_resultRow_searchResults (r :: rs)
      have h2 := countList_rows _ count_resultRow_loading (r :: rs)
      have e3 : Node.count (.cls "searchResults") taflaHeader.toNode = 0 := rfl
      have e4 : Node.count (.cls "loading") taflaHeader.toNode = 0 := rfl
      have u1 : ∀ (s : Selector) (l : List Node),
          Node.count s (el "table" [("class", "searchResults")] (taflaHeader.toNode :: l)).toNode
            = (if s.matches "table" [("class", "searchResults")] = true then 1 else 0)
              + (Node.count s taflaHeader.toNode + Node.countList s l) := fun _ _ => rfl
      constructor
      · rw [u1, e3, h1]; rfl
      · rw [u1, e4, h2]; rfl

namespace Element

theorem countAll_appendChild (s : Selector) (e : Element) (c : Node) :
    (e.appendChild c).countAll s = e.countAll s + Node.count s c := by
  simp [countAll, appendChild, Node.countList_append, Node.countList]

theorem countAll_removeFirst_le (s s2 : Selector) (e : Element) :
    (e.removeFirst s).countAll s2 ≤ e.countAll s2 :=
  Node.countList_alter_remove_le s s2 e.children

theorem countAll_removeFirst_zero (s : Selector) (e : Element) (h : e.countAll s ≤ 1) :
    (e.removeFirst s).countAll s = 0 :=
  Node.countList_remove_eq_zero s e.children h

theorem removeFirst_of_count_zero (s : Selector) (e : Element) (h : e.countAll s = 0) :
    e.removeFirst s = e := by
  simp [removeFirst, Node.alterList_of_count_zero s _ e.children h]

theorem removeFirst_appendChild (s : Selector) (e c : Element) (h : e.countAll s = 0)
    (hc : c.isMatch s = true) : (e.appendChild c.toNode).removeFirst s = e := by
  have h1 := Node.find_of_isMatch s c hc
  simp [removeFirst, appendChild, Node.alterList_append_of_count_zero s _ e.children _ h,
    Node.alterList, h1]
  simp only [isMatch] at hc
  simp [toNode, Node.alter, hc]

theorem querySelector_eq_none_iff (s : Selector) (e : Element) :
    e.querySelector s = none ↔ e.countAll s = 0 :=
  Node.findList_eq_none_iff s e.children

end Element

theorem setLoading_fst (m : Element) (f : Option Element) :
    (setLoading m f).1
      = if m.countAll (.cls "loading") = 0 then m.appendChild loadingEl.toNode else m := by
  by_cases h : m.countAll (.cls "loading") = 0
  · have h1 := (Element.querySelector_eq_none_iff _ m).mpr h
    cases f <;> simp [setLoading, h1, h]
  · have h1 : m.querySelector (.cls "loading") ≠ none :=
      fun e => h ((Element.querySelector_eq_none_iff _ m).mp e)
    cases hq : m.querySelector (.cls "loading") with
    | none => exact absurd hq h1
    | some x => cases f <;> simp [setLoading, hq, h]

theorem setNotLoading_fst (m : Element) (f : Option Element) :
    (setNotLoading m f).1 = m.removeFirst (.cls "loading") := by
  cases f <;> rfl

theorem count_loadingEl_loading : Node.count (.cls "loading") loadingEl.toNode = 1 := rfl

theorem count_loadingEl_searchResults :
    Node.count (.cls "searchResults") loadingEl.toNode = 0 := rfl

theorem isMatch_loadingEl : loadingEl.isMatch (.cls "loading") = true := rfl

theorem setLoading_count_loading (m : Element) (f : Option Element)
    (h : m.countAll (.cls "loading") ≤ 1) :
    (setLoading m f).1.countAll (.cls "loading") = 1 := by
  rw [setLoading_fst]
  by_cases h0 : m.countAll (.cls "loading") = 0
  · simp [h0, Element.countAll_appendChild, count_loadingEl_loading]
  · simp only [h0, if_false]; omega

theorem setLoading_count_searchResults (m : Element) (f : Option Element) :
    (setLoading m f).1.countAll (.cls "searchResults") = m.countAll (.cls "searchResults") := by
  rw [setLoading_fst]
  by_cases h0 : m.countAll (.cls "loading") = 0
  · simp [h0, Element.countAll_appendChild, count_loadingEl_searchResults]
  · simp [h0]

theorem before_busy (m : Element) (f : Option Element) (h : Exclusive m) :
    Busy (searchAndRender.before m f).1 := by
  unfold Exclusive at h
  unfold Busy searchAndRender.before
  have h1 := Element.countAll_removeFirst_le (.cls "searchResults") (.cls "loading") m
  have h2 := Element.countAll_removeFirst_zero (.cls "searchResults") m (by omega)
  constructor
  · exact setLoading_count_loading _ f (by omega)
  · rw [setLoading_count_searchResults]; exact h2

theorem after_fst (m : Element) (f : Option Element) (results : Option (List Launch))
    (q : String) :
    (searchAndRender.after m f results q).1.1
      = match createSearchResults results q with
        | .error _ => m.removeFirst (.cls "loading")
        | .ok table => (m.removeFirst (.cls "loading")).appendChild table.toNode := by
  unfold searchAndRender.after
  cases hc : createSearchResults results q <;> simp [setNotLoading_fst]

theorem after_exclusive (m : Element) (f : Option Element) (results : Option (List Launch))
    (q : String) (h : Busy m) : Exclusive (searchAndRender.after m f results q).1.1 := by
  unfold Busy at h
  unfold Exclusive
  rw [after_fst]
  have h1 := Element.countAll_removeFirst_le (.cls "loading") (.cls "searchResults") m
  have h2 := Element.countAll_removeFirst_zero (.cls "loading") m (by omega)
  cases hc : createSearchResults results q with
  | error e => simp only; omega
  | ok table =>
    have ht := count_createSearchResults results q table hc
    simp only [Element.countAll_appendChild]
    omega

theorem after_count_loading (m : Element) (f : Option Element)
    (results : Option (List Launch)) (q : String) (h : m.countAll (.cls "loading") ≤ 1) :
    (searchAndRender.after m f results q).1.1.countAll (.cls "loading") = 0 := by
  rw [after_fst]
  have h2 := Element.countAll_removeFirst_zero (.cls "loading") m h
  cases hc : createSearchResults results q with
  | error e => simpa using h2
  | ok table =>
    have ht := count_createSearchResults results q table hc
    simp only [Element.countAll_appendChild]
    omega

theorem before_count_loading (m : Element) (f : Option Element)
    (h : m.countAll (.cls "loading") ≤ 1) :
    (searchAndRender.before m f).1.countAll (.cls "loading") = 1 := by
  unfold searchAndRender.before
  have h1 := Element.countAll_removeFirst_le (.cls "searchResults") (.cls "loading") m
  exact setLoading_count_loading _ f (by omega)

theorem step_count_loading (state : Element × Option Element) (e : Event)
    (h : state.1.countAll (.cls "loading") ≤ 1) :
    (step state e).1.countAll (.cls "loading") ≤ 1 := by
  cases e with
  | submit q => simp only [step]; rw [before_count_loading _ _ h]
  | settle q settled =>
    cases settled with
    | resolved results => simp only [step]; rw [after_count_loading _ _ _ _ h]; omega
    | rejected reason => simpa [step] using h

theorem runEvents_count_loading (es : List Event) :
    ∀ state : Element × Option Element, state.1.countAll (.cls "loading") ≤ 1 →
      (runEvents state es).1.countAll (.cls "loading") ≤ 1 := by
  induction es with
  | nil => intro state h; simpa [runEvents] using h
  | cons e es ih =>
    intro state h
    simp only [runEvents, List.foldl] at ih ⊢
    exact ih _ (step_count_loading state e h)

theorem busy_exclusive (m : Element) (h : Busy m) : Exclusive m := by
  unfold Busy at h; unfold Exclusive; omega

theorem runEvents_sequential (es : List Event) :
    ∀ (state : Element × Option Element) (p : Option String), sequential p es = true →
      (match p with
        | none => Exclusive state.1
        | some _ => Busy state.1) →
      Exclusive (runEvents state es).1 := by
  induction es with
  | nil =>
    intro state p _ h
    cases p with
    | none => simpa [runEvents] using h
    | some q => simpa [runEvents] using busy_exclusive _ h
  | cons e es ih =>
    intro state p hs h
    simp only [runEvents, List.foldl] at ih ⊢
    cases p with
    | none =>
      cases e with
      | submit q =>
        simp only [sequential] at hs
        exact ih _ (some q) hs (before_busy state.1 state.2 h)
      | settle q settled => simp [sequential] at hs
    | some p =>
      cases e with
      | submit q => simp [sequential] at hs
      | settle q settled =>
        simp only [sequential, Bool.and_eq_true] at hs
        cases settled with
        | resolved results =>
          exact ih _ none hs.2 (after_exclusive state.1 state.2 results q h)
        | rejected reason =>
          exact ih _ none hs.2 (busy_exclusive _ h)

theorem setLoading_idem (m : Element) (f : Option Element) :
    setLoading (setLoading m f).1 (setLoading m f).2 = setLoading m f := by
  have hreg : ∀ g : Option Element, (setLoading (setLoading m f).1 g).1 = (setLoading m f).1 := by
    intro g
    rw [setLoading_fst _ g]
    by_cases h0 : m.countAll (.cls "loading") = 0
    · have := setLoading_count_loading m f (by omega)
      simp [this]
    · have : (setLoading m f).1 = m := by rw [setLoading_fst]; simp [h0]
      rw [this]; simp [h0]
  cases f with
  | none =>
    have h2 : (setLoading m none).2 = none := rfl
    have h3 : ∀ x : Element, (setLoading x none).2 = none := fun _ => rfl
    apply Prod.ext
    · rw [h2]; exact hreg none
    · rw [h2, h3]
  | some form =>
    have h2 : ∀ x : Element, ∀ g : Element, (setLoading x (some g)).2
        = some (g.updateFirst (.tag "button") (Element.setAttribute "disabled" "disabled")) :=
      fun _ _ => rfl
    apply Prod.ext
    · exact hreg _
    · rw [h2 m form, h2]
      have := Node.alterList_alter (.tag "button") (.tag "button")
        (Element.setAttribute "disabled" "disabled") (Element.setAttribute "disabled" "disabled")
        (fun _ _ h => h) (fun x h => Element.isMatch_tag_setAttribute _ _ _ x h) form.children
      simp only [Element.setAttribute_idem] at this
      simp only [Element.updateFirst, this]

mutual
theorem find_isMatch (s : Selector) :
    ∀ (n : Node) (r : Element), Node.find s n = some r → r.isMatch s = true
  | .text _, _, h => by simp [Node.find] at h
  | .element t a cs, r, h => by
    by_cases hm : s.matches t a
    · simp [Node.find, hm] at h
      subst h
      simpa [Element.isMatch] using hm
    · simp [Node.find, hm] at h
      exact findList_isMatch s cs r h
theorem findList_isMatch (s : Selector) :
    ∀ (l : List Node) (r : Element), Node.findList s l = some r → r.isMatch s = true
  | [], _, h => by simp [Node.findList] at h
  | n :: ns, r, h => by
    cases hf : Node.find s n with
    | none =>
      simp [Node.findList, hf] at h
      exact findList_isMatch s ns r h
    | some q =>
      simp [Node.findList, hf] at h
      subst h
      exact find_isMatch s n q hf
end

/-! ## The result renderer -/

/-- C1, as the code behaves: `createSearchResults(null, q)` does not return for
any query `q`. After the error row is appended to the table, `results.length` is
read, which raises a `TypeError` for `null`; no container is returned. -/
theorem C1_createSearchResults_null_raises (q : String) :
    createSearchResults none q = .error typeError := rfl

/-- C7: for a non-empty list of records `rs`, `createSearchResults(rs, q)`
returns a `searchResults` table whose children are the header row
(`resultHeader`) followed by one `result` row per record, in input order, and
nothing else; the text of the row of a record is
`Nafn: <name> ---- Staða: <status> ---- Mission: <mission>`. -/
theorem C7_createSearchResults_populated (rs : List Launch) (q : String) (h : rs ≠ []) :
    ∃ table : Element, createSearchResults (some rs) q = .ok table
      ∧ table.isMatch (.cls "searchResults") = true
      ∧ table.children = taflaHeader.toNode :: rs.map (fun r => (resultRow r).toNode)
      ∧ taflaHeader.isMatch (.cls "resultHeader") = true
      ∧ table.countAll (.cls "resultHeader") = 1
      ∧ ∀ r : Launch, (resultRow r).isMatch (.cls "result") = true
          ∧ (resultRow r).textContent
              = "Nafn: " ++ r.name ++ " ---- " ++ "Staða: " ++ r.status.name ++ " ---- "
                ++ "Mission: " ++ r.mission := by
  cases rs with
  | nil => exact absurd rfl h
  | cons r rs =>
    refine ⟨_, createSearchResults_cons r rs q, rfl, rfl, rfl, ?_, ?_⟩
    · have h1 := countList_rows _ count_resultRow_resultHeader (r :: rs)
      have u : ∀ l : List Node,
          (el "table" [("class", "searchResults")] (taflaHeader.toNode :: l)).countAll
            (.cls "resultHeader") = 1 + Node.countList (.cls "resultHeader") l := fun _ => rfl
      rw [u, h1]
    · intro r
      refine ⟨rfl, ?_⟩
      have e1 : ∀ x : String, " ---- " ++ ("Staða: " ++ x) = " ---- Staða: " ++ x := by
        intro x; rw [← String.append_assoc]; rfl
      have e2 : ∀ x : String, " ---- " ++ ("Mission: " ++ x) = " ---- Mission: " ++ x := by
        intro x; rw [← String.append_assoc]; rfl
      simp [resultRow, el, Element.textContent, Node.textContentList, Node.textContent,
        Element.toNode, String.append_assoc, e1, e2]

theorem C7_createSearchResults_populated_witness :
    ∃ table : Element, createSearchResults (some [falcon9]) "Falcon" = .ok table
      ∧ table.isMatch (.cls "searchResults") = true
      ∧ table.children = taflaHeader.toNode :: [falcon9].map (fun r => (resultRow r).toNode)
      ∧ taflaHeader.isMatch (.cls "resultHeader") = true
      ∧ table.countAll (.cls "resultHeader") = 1
      ∧ ∀ r : Launch, (resultRow r).isMatch (.cls "result") = true
          ∧ (resultRow r).textContent
              = "Nafn: " ++ r.name ++ " ---- " ++ "Staða: " ++ r.status.name ++ " ---- "
                ++ "Mission: " ++ r.mission :=
  C7_createSearchResults_populated [falcon9] "Falcon" (by simp)

/-- C8: `createSearchResults([], q)` returns, for every query `q`, a
`searchResults` table whose children are the row `Engar niðurstöður` and the
header row: one header row (`resultHeader`), one row for no results, and no
record row (`result`). -/
theorem C8_createSearchResults_empty (q : String) :
    ∃ table : Element, createSearchResults (some []) q = .ok table
      ∧ table.isMatch (.cls "searchResults") = true
      ∧ table.children = [emptyRow.toNode, taflaHeader.toNode]
      ∧ emptyRow.textContent = "Engar niðurstöður"
      ∧ emptyRow.isMatch (.cls "resultHeader") = false
      ∧ emptyRow.isMatch (.cls "result") = false
      ∧ table.countAll (.cls "resultHeader") = 1
      ∧ table.countAll (.cls "result") = 0 :=
  ⟨_, createSearchResults_empty q, rfl, rfl, rfl, rfl, rfl, rfl, rfl⟩

/-! ## The loading-state manager -/

/-- C9: `setLoading` is idempotent. For a region with no loading indicator and
a form with a single button, not disabled, a second call of
`setLoading(region, form)` changes nothing, and the region holds one loading
indicator and the form one disabled button. -/
theorem C9_setLoading_idempotent (region form : Element)
    (hl : region.countAll (.cls "loading") = 0)
    (hb : form.countAll (.tag "button") = 1)
    (hd : form.countAll (.tagAttr "button" "disabled") = 0) :
    setLoading (setLoading region (some form)).1 (setLoading region (some form)).2
        = setLoading region (some form)
      ∧ (setLoading region (some form)).1.countAll (.cls "loading") = 1
      ∧ ∃ form2 : Element, (setLoading region (some form)).2 = some form2
          ∧ form2.countAll (.tag "button") = 1
          ∧ form2.countAll (.tagAttr "button" "disabled") = 1 := by
  refine ⟨setLoading_idem region (some form), setLoading_count_loading region _ (by omega),
    _, rfl, ?_, ?_⟩
  · have := Node.countList_alter_same (.tag "button") (.tag "button")
      (Element.setAttribute "disabled" "disabled") (fun _ => rfl) (fun _ => rfl) form.children
    simp only [Element.countAll, Element.updateFirst, this]
    exact hb
  · have hs : (Node.findList (.tag "button") form.children).isSome = true := by
      rw [Node.findList_isSome_iff]
      simp only [Element.countAll] at hb
      omega
    exact Node.countList_alter_update (.tag "button") (.tagAttr "button" "disabled")
      (Element.setAttribute "disabled" "disabled")
      (fun x h => Element.isMatch_tagAttr_setAttribute _ _ _ x h) (fun _ => rfl)
      form.children hd hs

theorem C9_setLoading_idempotent_witness :
    setLoading (setLoading (frontpageMain none) (some (renderSearchForm none))).1
          (setLoading (frontpageMain none) (some (renderSearchForm none))).2
        = setLoading (frontpageMain none) (some (renderSearchForm none))
      ∧ (setLoading (frontpageMain none) (some (renderSearchForm none))).1.countAll
          (.cls "loading") = 1
      ∧ ∃ form2 : Element,
          (setLoading (frontpageMain none) (some (renderSearchForm none))).2 = some form2
          ∧ form2.countAll (.tag "button") = 1
          ∧ form2.countAll (.tagAttr "button" "disabled") = 1 :=
  C9_setLoading_idempotent (frontpageMain none) (renderSearchForm none)
    (by decide) (by decide) (by decide)

/-! ## The flows -/

theorem setNotLoading_setLoading_fst (region : Element) (f g : Option Element) :
    (setNotLoading (setLoading region f).1 g).1 = region.removeFirst (.cls "loading") := by
  rw [setNotLoading_fst, setLoading_fst]
  by_cases h0 : region.countAll (.cls "loading") = 0
  · simp only [h0, if_true]
    rw [Element.removeFirst_appendChild _ _ _ h0 isMatch_loadingEl,
      Element.removeFirst_of_count_zero _ _ h0]
  · simp [h0]

theorem updateLastChild_appendChild (e c : Element) (g : Element → Element) :
    (e.appendChild c.toNode).updateLastChild g = e.appendChild (g c).toNode := by
  simp [Element.updateLastChild, Element.appendChild, Element.toNode, Node.onElement]

theorem renderDetails_record (stray : List Node) (region : Element) (id : String) (r : Launch) :
    renderDetails stray region id (.resolved (some r))
      = { parentElement := (region.removeFirst (.cls "loading")).appendChild
            ((detailsContainer stray r).appendChild backElement.toNode).toNode,
          searchForm := none, calls := [id], warnings := [], result := .ok () } := by
  simp only [renderDetails]
  rw [updateLastChild_appendChild, setNotLoading_setLoading_fst]

theorem renderDetails_null (stray : List Node) (region : Element) (id : String) :
    renderDetails stray region id (.resolved none)
      = { parentElement := (region.removeFirst (.cls "loading")).appendChild errorRow.toNode,
          searchForm := none, calls := [id], warnings := [], result := .ok () } := by
  simp only [renderDetails]
  rw [setNotLoading_setLoading_fst]

theorem count_details_loading (stray : List Node) (r : Launch) :
    Node.count (.cls "loading") ((detailsContainer stray r).appendChild backElement.toNode).toNode
      = Node.countList (.cls "loading") stray := by
  have u : Node.count (.cls "loading")
      ((detailsContainer stray r).appendChild backElement.toNode).toNode
        = 0 + Node.countList (.cls "loading")
            ((detailsContainer [] r).children ++ (stray ++ [backElement.toNode])) := rfl
  have a : Node.countList (.cls "loading") (detailsContainer [] r).children = 0 := rfl
  have b : Node.countList (.cls "loading") [backElement.toNode] = 0 := rfl
  rw [u, Node.countList_append, Node.countList_append, a, b]
  omega

/-- C5, as the code behaves: the `img` element of the details container is
built by `el('img')`, without attributes; the map holding `class` and `src` is
passed to the `el` call of the container, not to that of the image. For every
record the `img` element of the container carries no `src` and no `class`. -/
theorem C5_details_img_without_src (stray : List Node) (r : Launch) :
    (detailsContainer stray r).querySelector (.tag "img") = some (el "img" [] [])
      ∧ (el "img" [] []).hasAttribute "src" = false
      ∧ (el "img" [] []).hasAttribute "class" = false :=
  ⟨rfl, rfl, rfl⟩

/-- C10: details round trip. When `getLaunch(id)` resolves with a record `r`,
`renderDetails` calls the collaborator once, removes the loading indicator and
appends to the region one details container (`detailMain`) with, in order, the
name, `window_start`, `window_end`, the name again and the mission of `r`, the
image element, and last the back-navigation element, a link to `/`. When it
resolves with `null`, `renderDetails` appends one element, the error row
`Villa`, which holds no details container and no back-navigation element. -/
theorem C10_renderDetails_round_trip (stray : List Node) (region : Element) (id : String)
    (r : Launch) :
    (renderDetails stray region id (.resolved (some r))).calls = [id]
      ∧ (renderDetails stray region id (.resolved (some r))).parentElement.children
          = (region.removeFirst (.cls "loading")).children
            ++ [(el "main" [("class", "detailMain")]
                ([(el "h1" [("class", "launchName")] [.text r.name]).toNode,
                  (el "span" [("class", "startTime")] [.text r.window_start]).toNode,
                  (el "span" [("class", "endTime")] [.text r.window_end]).toNode,
                  (el "span" [("class", "resultName")] [.text r.name]).toNode,
                  (el "span" [("class", "resultMissionName")] [.text r.mission]).toNode,
                  (el "img" [] []).toNode] ++ stray ++ [backElement.toNode])).toNode]
      ∧ backElement.children = [(el "a" [("href", "/")] [.text "Til baka"]).toNode]
      ∧ (renderDetails stray region id (.resolved none)).calls = [id]
      ∧ (renderDetails stray region id (.resolved none)).parentElement.children
          = (region.removeFirst (.cls "loading")).children ++ [errorRow.toNode]
      ∧ errorRow.textContent = "Villa"
      ∧ Node.count (.cls "detailMain") errorRow.toNode = 0
      ∧ Node.count (.cls "back") errorRow.toNode = 0
      ∧ Node.count (.tag "a") errorRow.toNode = 0 := by
  rw [renderDetails_record, renderDetails_null]
  refine ⟨rfl, ?_, rfl, rfl, rfl, rfl, rfl, rfl, rfl⟩
  simp [Element.appendChild, detailsContainer, el, Element.toNode]

theorem createSearchResults_list (rs : List Launch) (q : String) :
    ∃ table : Element, createSearchResults (some rs) q = .ok table := by
  cases rs with
  | nil => exact ⟨_, createSearchResults_empty q⟩
  | cons r rs => exact ⟨_, createSearchResults_cons r rs q⟩

/-! ## Invocations that overlap -/

/-- C3, amended: from a main region with no loading indicator and no results
subtree, after any sequence of `searchAndRender` invocations on it, overlapping
or not and settling in any order, the region holds at most one loading
indicator; when the invocations do not overlap it holds at most one results
subtree as well. -/
theorem C3_at_most_one (region : Element) (form : Option Element) (es : List Event)
    (hl : region.countAll (.cls "loading") = 0)
    (hr : region.countAll (.cls "searchResults") = 0) :
    (wellFormed [] es = true →
        (runEvents (region, form) es).1.countAll (.cls "loading") ≤ 1)
      ∧ (sequential none es = true →
          (runEvents (region, form) es).1.countAll (.cls "loading") ≤ 1
          ∧ (runEvents (region, form) es).1.countAll (.cls "searchResults") ≤ 1) := by
  constructor
  · intro _
    exact runEvents_count_loading es (region, form) (by simp [hl])
  · intro hs
    have h := runEvents_sequential es (region, form) none hs
      (by simp only [Exclusive]; omega)
    unfold Exclusive at h
    omega

theorem C3_at_most_one_witness :
    (runEvents (frontpageMain none, some (renderSearchForm none)) overlapping).1.countAll
        (.cls "loading") ≤ 1
      ∧ (runEvents (frontpageMain none, some (renderSearchForm none)) oneByOne).1.countAll
          (.cls "loading") ≤ 1
      ∧ (runEvents (frontpageMain none, some (renderSearchForm none)) oneByOne).1.countAll
          (.cls "searchResults") ≤ 1 :=
  ⟨(C3_at_most_one (frontpageMain none) (some (renderSearchForm none)) overlapping
      (by decide) (by decide)).1 (by decide),
    (C3_at_most_one (frontpageMain none) (some (renderSearchForm none)) oneByOne
      (by decide) (by decide)).2 (by decide)⟩

/-- C3, as stated, fails for invocations that overlap: a second search submitted
while the first is pending, both resolving with a list, leaves two results
subtrees in the main region. -/
theorem C3_overlapping_two_results :
    (frontpageMain none).countAll (.cls "loading") = 0
      ∧ (frontpageMain none).countAll (.cls "searchResults") = 0
      ∧ wellFormed [] overlapping = true
      ∧ (runEvents (frontpageMain none, some (renderSearchForm none)) overlapping).1.countAll
          (.cls "searchResults") = 2 := by
  decide

/-- C4, amended: mutual exclusion for invocations that do not overlap. From a
main region with no loading indicator and no results subtree, in every state
between the steps of `searchAndRender` invocations each started when none is
pending, the region does not hold both a loading indicator and a results
subtree. -/
theorem C4_mutual_exclusion_sequential (region : Element) (form : Option Element)
    (es : List Event)
    (hl : region.countAll (.cls "loading") = 0)
    (hr : region.countAll (.cls "searchResults") = 0)
    (hs : sequential none es = true) :
    ¬ (0 < (runEvents (region, form) es).1.countAll (.cls "loading")
        ∧ 0 < (runEvents (region, form) es).1.countAll (.cls "searchResults")) := by
  have h := runEvents_sequential es (region, form) none hs
    (by simp only [Exclusive]; omega)
  unfold Exclusive at h
  omega

theorem C4_mutual_exclusion_sequential_witness :
    ¬ (0 < (runEvents (frontpageMain none, some (renderSearchForm none)) oneByOne).1.countAll
          (.cls "loading")
        ∧ 0 < (runEvents (frontpageMain none, some (renderSearchForm none)) oneByOne).1.countAll
          (.cls "searchResults")) :=
  C4_mutual_exclusion_sequential (frontpageMain none) (some (renderSearchForm none)) oneByOne
    (by decide) (by decide) (by decide)

/-- C4, as stated, fails for invocations that overlap: after two overlapping
searches have both resolved with a list, a third submission removes one of the
two results subtrees and enters the loading state, and the main region holds a
loading indicator and a results subtree at once. -/
theorem C4_overlapping_loading_and_results :
    (frontpageMain none).countAll (.cls "loading") = 0
      ∧ (frontpageMain none).countAll (.cls "searchResults") = 0
      ∧ wellFormed [] overlappingThenSubmit = true
      ∧ (runEvents (frontpageMain none, some (renderSearchForm none))
          overlappingThenSubmit).1.countAll (.cls "loading") = 1
      ∧ (runEvents (frontpageMain none, some (renderSearchForm none))
          overlappingThenSubmit).1.countAll (.cls "searchResults") = 1 := by
  decide

/-! ## Lemmas on paths -/

namespace Node

theorem getAt_modifyAt (g : Element → Element) :
    ∀ (p : List Nat) (n : Node), getAt p (modifyAt g p n) = (getAt p n).map g := by
  intro p
  induction p with
  | nil =>
    intro n
    cases n with
    | text d => simp [modifyAt, getAt]
    | element t a cs => simp [modifyAt, getAt, Element.toNode]
  | cons i p ih =>
    intro n
    cases n with
    | text d => simp [modifyAt, getAt]
    | element t a cs =>
      simp only [modifyAt, getAt]
      have key : ∀ (l : List Node) (i : Nat),
          getAtList i p (modifyAtList g i p l) = (getAtList i p l).map g := by
        intro l
        induction l with
        | nil => intro i; simp [modifyAtList, getAtList]
        | cons c cs ihl =>
          intro i
          cases i with
          | zero => simp only [modifyAtList, getAtList]; exact ih c
          | succ i => simp only [modifyAtList, getAtList]; exact ihl i
      exact key cs i

theorem count_modifyAt (s : Selector) (g : Element → Element)
    (hg : ∀ x : Element, count s (g x).toNode = count s x.toNode) :
    ∀ (p : List Nat) (n : Node), count s (modifyAt g p n) = count s n := by
  intro p
  induction p with
  | nil =>
    intro n
    cases n with
    | text d => simp [modifyAt]
    | element t a cs => simp only [modifyAt]; exact hg ⟨t, a, cs⟩
  | cons i p ih =>
    intro n
    cases n with
    | text d => simp [modifyAt]
    | element t a cs =>
      simp only [modifyAt, count]
      have key : ∀ (l : List Node) (i : Nat),
          countList s (modifyAtList g i p l) = countList s l := by
        intro l
        induction l with
        | nil => intro i; simp [modifyAtList]
        | cons c cs ihl =>
          intro i
          cases i with
          | zero => simp only [modifyAtList, countList]; rw [ih c]
          | succ i => simp only [modifyAtList, countList]; rw [ihl i]
      rw [key cs i]

theorem countList_modifyAtList (s : Selector) (g : Element → Element)
    (hg : ∀ x : Element, count s (g x).toNode = count s x.toNode) (p : List Nat) :
    ∀ (l : List Node) (i : Nat), countList s (modifyAtList g i p l) = countList s l := by
  intro l
  induction l with
  | nil => intro i; simp [modifyAtList]
  | cons c cs ihl =>
    intro i
    cases i with
    | zero => simp only [modifyAtList, countList]; rw [count_modifyAt s g hg p c]
    | succ i => simp only [modifyAtList, countList]; rw [ihl i]

/-- Reading at one path after a mutation at another: the element read is still
there and related by `P` to what was there, for a relation `P` that the mutation
keeps at its root, along the paths below its root, and at the elements above it. -/
theorem getAt_modifyAt_rel (g : Element → Element) (P : Element → Element → Prop)
    (hrefl : ∀ x, P x x)
    (hroot : ∀ x, P x (g x))
    (hstab : ∀ (x : Element) (i : Nat) (q : List Nat) (m : Element),
      getAtList i q x.children = some m →
        ∃ m2, getAtList i q (g x).children = some m2 ∧ P m m2)
    (hwrap : ∀ (t : String) (a : List (String × String)) (cs : List Node) (i : Nat)
      (p : List Nat), P ⟨t, a, cs⟩ ⟨t, a, modifyAtList g i p cs⟩) :
    ∀ (q p : List Nat) (n : Node) (m : Element), getAt q n = some m →
      ∃ m2, getAt q (modifyAt g p n) = some m2 ∧ P m m2 := by
  intro q
  induction q with
  | nil =>
    intro p n m h
    cases n with
    | text d => simp [getAt] at h
    | element t a cs =>
      simp only [getAt, Option.some.injEq] at h
      subst h
      cases p with
      | nil => exact ⟨g ⟨t, a, cs⟩, by simp [modifyAt, getAt, Element.toNode], hroot _⟩
      | cons j p => exact ⟨_, by simp [modifyAt, getAt], hwrap t a cs j p⟩
  | cons i q ih =>
    intro p n m h
    cases n with
    | text d => simp [getAt] at h
    | element t a cs =>
      simp only [getAt] at h
      cases p with
      | nil =>
        obtain ⟨m2, h2, hp⟩ := hstab ⟨t, a, cs⟩ i q m h
        exact ⟨m2, by simpa [modifyAt, getAt, Element.toNode] using h2, hp⟩
      | cons j p =>
        simp only [modifyAt, getAt]
        -- the list of children, one of which is rewritten
        have key : ∀ (l : List Node) (i j : Nat), getAtList i q l = some m →
            ∃ m2, getAtList i q (modifyAtList g j p l) = some m2 ∧ P m m2 := by
          intro l
          induction l with
          | nil => intro i j h; simp [getAtList] at h
          | cons c cs ihl =>
            intro i j h
            cases i with
            | zero =>
              cases j with
              | zero =>
                simp only [getAtList] at h
                simp only [modifyAtList, getAtList]
                exact ih p c m h
              | succ j =>
                simp only [getAtList] at h
                exact ⟨m, by simpa [modifyAtList, getAtList] using h, hrefl m⟩
            | succ i =>
              cases j with
              | zero =>
                simp only [getAtList] at h
                exact ⟨m, by simpa [modifyAtList, getAtList] using h, hrefl m⟩
              | succ j =>
                simp only [getAtList] at h
                simp only [modifyAtList, getAtList]
                exact ihl i j h
        exact key cs i j h

end Node

theorem rebase_nil (r : List Nat) : rebase r [] = [] := by
  cases r <;> rfl

theorem rebase_succ (i j : Nat) (rr p : List Nat) :
    rebase ((i + 1) :: rr) ((j + 1) :: p) = shift (rebase (i :: rr) (j :: p)) := by
  by_cases he : rr.isEmpty
  · by_cases hlt : i < j
    · have h2 : i + 1 < j + 1 := by omega
      have h3 : j - 1 + 1 = j := by omega
      simp [rebase, he, hlt, h2, shift, h3]
    · have h2 : ¬ (i + 1 < j + 1) := by omega
      simp [rebase, he, hlt, shift]
  · by_cases heq : i = j
    · simp [rebase, he, heq, shift]
    · simp [rebase, he, heq, shift]

theorem rebase_succ_zero (i : Nat) (rr p : List Nat) :
    rebase ((i + 1) :: rr) (0 :: p) = 0 :: p := by
  by_cases he : rr.isEmpty <;> simp [rebase, he]

namespace Node

mutual
theorem induct_node {P : Node → Prop} {Q : List Node → Prop} (htext : ∀ d, P (.text d))
    (helem : ∀ t a cs, Q cs → P (.element t a cs)) (hnil : Q [])
    (hcons : ∀ n ns, P n → Q ns → Q (n :: ns)) : ∀ n : Node, P n
  | .text d => htext d
  | .element t a cs => helem t a cs (induct_list htext helem hnil hcons cs)
theorem induct_list {P : Node → Prop} {Q : List Node → Prop} (htext : ∀ d, P (.text d))
    (helem : ∀ t a cs, Q cs → P (.element t a cs)) (hnil : Q [])
    (hcons : ∀ n ns, P n → Q ns → Q (n :: ns)) : ∀ l : List Node, Q l
  | [] => hnil
  | n :: ns => hcons n ns (induct_node htext helem hnil hcons n)
      (induct_list htext helem hnil hcons ns)
end

theorem induct {P : Node → Prop} {Q : List Node → Prop} (htext : ∀ d, P (.text d))
    (helem : ∀ t a cs, Q cs → P (.element t a cs)) (hnil : Q [])
    (hcons : ∀ n ns, P n → Q ns → Q (n :: ns)) : (∀ n : Node, P n) ∧ (∀ l : List Node, Q l) :=
  ⟨induct_node htext helem hnil hcons, induct_list htext helem hnil hcons⟩

theorem pathOf_spec_both (s : Selector) :
    (∀ n : Node, (∀ p, pathOf s n = some p → getAt p n = find s n ∧ (find s n).isSome = true)
      ∧ (pathOf s n = none → find s n = none))
    ∧ (∀ l : List Node, (∀ r, pathOfList s l = some r →
        ∃ i p, r = i :: p ∧ getAtList i p l = findList s l ∧ (findList s l).isSome = true)
      ∧ (pathOfList s l = none → findList s l = none)) := by
  apply induct
  · intro d; simp [pathOf, find]
  · intro t a cs ih
    by_cases hm : s.matches t a
    · constructor
      · intro p hp
        simp only [pathOf, hm, if_true, Option.some.injEq] at hp
        subst hp
        simp [find, hm, getAt]
      · intro hp
        simp [pathOf, hm] at hp
    · constructor
      · intro p hp
        simp only [pathOf, hm] at hp
        obtain ⟨i, q, hq, h1, h2⟩ := ih.1 p hp
        subst hq
        simp only [find, hm]
        exact ⟨by simpa [getAt] using h1, by simpa using h2⟩
      · intro hp
        simp only [pathOf, hm] at hp
        simpa [find, hm] using ih.2 (by simpa using hp)
  · simp [pathOfList, findList]
  · intro n ns ih1 ih2
    cases hp : pathOf s n with
    | some p =>
      obtain ⟨h1, h2⟩ := ih1.1 p hp
      constructor
      · intro r hr
        simp only [pathOfList, hp, Option.some.injEq] at hr
        subst hr
        cases hf : find s n with
        | none => rw [hf] at h2; cases h2
        | some x =>
          refine ⟨0, p, rfl, ?_, ?_⟩
          · simp only [getAtList, findList, hf, h1]
          · simp [findList, hf]
      · intro hr
        simp [pathOfList, hp] at hr
    | none =>
      have hn := ih1.2 hp
      constructor
      · intro r hr
        simp only [pathOfList, hp, Option.map_eq_some'] at hr
        obtain ⟨r2, hr2, hsh⟩ := hr
        obtain ⟨i, q, hq, h1, h2⟩ := ih2.1 r2 hr2
        subst hq
        subst hsh
        refine ⟨i + 1, q, rfl, ?_, ?_⟩
        · simp only [getAtList, findList, hn, h1]
        · simpa [findList, hn] using h2
      · intro hr
        simp only [pathOfList, hp, Option.map_eq_none'] at hr
        simp [findList, hn, ih2.2 hr]

theorem pathOfList_spec (s : Selector) (l : List Node) :
    (∀ r, pathOfList s l = some r →
        ∃ i p, r = i :: p ∧ getAtList i p l = findList s l ∧ (findList s l).isSome = true)
      ∧ (pathOfList s l = none → findList s l = none) :=
  (pathOf_spec_both s).2 l

theorem pathOf_spec (s : Selector) (n : Node) :
    (∀ p, pathOf s n = some p → getAt p n = find s n ∧ (find s n).isSome = true)
      ∧ (pathOf s n = none → find s n = none) :=
  (pathOf_spec_both s).1 n

theorem pathOfList_ne_nil (s : Selector) (l : List Node) (r : List Nat)
    (h : pathOfList s l = some r) : ∃ i p, r = i :: p := by
  obtain ⟨i, p, hr, _, _⟩ := (pathOfList_spec s l).1 r h
  exact ⟨i, p, hr⟩

theorem countList_pos_of_pathOfList (s : Selector) (l : List Node) (r : List Nat)
    (h : pathOfList s l = some r) : 0 < countList s l := by
  obtain ⟨i, p, _, _, h2⟩ := (pathOfList_spec s l).1 r h
  exact (findList_isSome_iff s l).mp h2

theorem countList_zero_of_pathOfList (s : Selector) (l : List Node)
    (h : pathOfList s l = none) : countList s l = 0 :=
  (findList_eq_none_iff s l).mp ((pathOfList_spec s l).2 h)

theorem count_le_of_getAt (s : Selector) :
    ∀ (p : List Nat) (n : Node) (m : Element), getAt p n = some m →
      count s m.toNode ≤ count s n := by
  intro p
  induction p with
  | nil =>
    intro n m h
    cases n with
    | text d => simp [getAt] at h
    | element t a cs =>
      simp only [getAt, Option.some.injEq] at h
      subst h
      exact Nat.le_refl _
  | cons i p ih =>
    intro n m h
    cases n with
    | text d => simp [getAt] at h
    | element t a cs =>
      simp only [getAt] at h
      have key : ∀ (l : List Node) (i : Nat), getAtList i p l = some m →
          count s m.toNode ≤ countList s l := by
        intro l
        induction l with
        | nil => intro i h; simp [getAtList] at h
        | cons c cs ihl =>
          intro i h
          cases i with
          | zero =>
            simp only [getAtList] at h
            have := ih c m h
            simp only [countList]; omega
          | succ i =>
            simp only [getAtList] at h
            have := ihl i h
            simp only [countList]; omega
      have := key cs i h
      have e : count s (.element t a cs)
          = (if s.matches t a = true then 1 else 0) + countList s cs := by simp [count]
      rw [e]; omega

theorem countList_children_le (s : Selector) (m : Element) :
    countList s m.children ≤ count s m.toNode := by
  simp only [Element.toNode, count]; omega

end Node

namespace Node

theorem matches_of_pathOf_nil (s : Selector) (t : String) (a : List (String × String))
    (cs : List Node) (h : pathOf s (.element t a cs) = some []) : s.matches t a = true := by
  by_cases hm : s.matches t a
  · exact hm
  · simp only [pathOf, hm] at h
    obtain ⟨i, p, hr⟩ := pathOfList_ne_nil s cs [] (by simpa using h)
    cases hr

/-- Removing the first match of a forest: an element that is not inside the
removed one is found at its rebased path, unchanged when it holds no match. -/
theorem getAt_remove_both (s : Selector) :
    (∀ n : Node, ∀ (r p : List Nat) (f : Element), pathOf s n = some r → r ≠ [] →
        getAt p n = some f → leads r p = false →
        ∃ n2 f2, alter s (fun _ => []) n = [n2] ∧ getAt (rebase r p) n2 = some f2
          ∧ (countList s f.children = 0 → f2 = f))
    ∧ (∀ l : List Node, ∀ (r : List Nat) (j : Nat) (p : List Nat) (f : Element),
        pathOfList s l = some r → getAtList j p l = some f → leads r (j :: p) = false →
        ∃ j2 p2 f2, rebase r (j :: p) = j2 :: p2
          ∧ getAtList j2 p2 (alterList s (fun _ => []) l) = some f2
          ∧ (countList s f.children = 0 → f2 = f)) := by
  apply induct
  · intro d r p f h
    simp [pathOf] at h
  · intro t a cs ih r p f hr hne hf hl
    have hm : s.matches t a = false := by
      cases hmm : s.matches t a with
      | false => rfl
      | true => simp [pathOf, hmm] at hr; exact absurd hr hne
    have hr2 : pathOfList s cs = some r := by simpa [pathOf, hm] using hr
    have halt : alter s (fun _ => []) (.element t a cs)
        = [.element t a (alterList s (fun _ => []) cs)] := by simp [alter, hm]
    cases p with
    | nil =>
      refine ⟨_, ⟨t, a, alterList s (fun _ => []) cs⟩, halt, ?_, ?_⟩
      · rw [rebase_nil]; simp [getAt]
      · intro hc
        simp only [getAt, Option.some.injEq] at hf
        subst hf
        have := countList_pos_of_pathOfList s cs r hr2
        simp only at hc
        omega
    | cons j p =>
      simp only [getAt] at hf
      obtain ⟨j2, p2, f2, e1, e2, e3⟩ := ih r j p f hr2 hf hl
      refine ⟨_, f2, halt, ?_, e3⟩
      rw [e1]
      simpa [getAt] using e2
  · intro r j p f h
    simp [pathOfList] at h
  · intro n ns ih1 ih2 r j p f hr hf hl
    cases hp : pathOf s n with
    | some r0 =>
      simp only [pathOfList, hp, Option.some.injEq] at hr
      subst hr
      have hsome : (find s n).isSome = true := ((pathOf_spec s n).1 r0 hp).2
      have halt : alterList s (fun _ => []) (n :: ns) = alter s (fun _ => []) n ++ ns := by
        simp [alterList, hsome]
      by_cases h0 : r0 = []
      · subst h0
        have hn : alter s (fun _ => []) n = [] := by
          cases n with
          | text d => simp [pathOf] at hp
          | element t a cs =>
            have := matches_of_pathOf_nil s t a cs hp
            simp [alter, this]
        cases j with
        | zero => simp [leads] at hl
        | succ j =>
          refine ⟨j, p, f, ?_, ?_, fun _ => rfl⟩
          · simp [rebase]
          · rw [halt, hn]
            simpa [getAtList] using hf
      · have hne : r0.isEmpty = false := by
          cases r0 with
          | nil => exact absurd rfl h0
          | cons _ _ => rfl
        cases j with
        | zero =>
          simp only [getAtList] at hf
          have hl2 : leads r0 p = false := by simpa [leads] using hl
          obtain ⟨n2, f2, e1, e2, e3⟩ := ih1 r0 p f hp h0 hf hl2
          refine ⟨0, rebase r0 p, f2, ?_, ?_, e3⟩
          · simp [rebase, hne]
          · rw [halt, e1]
            simpa [getAtList] using e2
        | succ j =>
          simp only [getAtList] at hf
          have hsing : ∃ n2, alter s (fun _ => []) n = [n2] := by
            cases n with
            | text d => simp [pathOf] at hp
            | element t a cs =>
              have hm : s.matches t a = false := by
                cases hmm : s.matches t a with
                | false => rfl
                | true => simp [pathOf, hmm] at hp; exact absurd hp h0
              exact ⟨.element t a (alterList s (fun _ => []) cs), by simp [alter, hm]⟩
          obtain ⟨n2, hn2⟩ := hsing
          refine ⟨j + 1, p, f, ?_, ?_, fun _ => rfl⟩
          · simp [rebase, hne]
          · rw [halt, hn2]
            simpa [getAtList] using hf
    | none =>
      have hnone : find s n = none := (pathOf_spec s n).2 hp
      simp only [pathOfList, hp, Option.map_eq_some'] at hr
      obtain ⟨r2, hr2, hsh⟩ := hr
      obtain ⟨i, rr, hir⟩ := pathOfList_ne_nil s ns r2 hr2
      subst hir
      subst hsh
      have halt : alterList s (fun _ => []) (n :: ns) = n :: alterList s (fun _ => []) ns := by
        simp [alterList, hnone]
      cases j with
      | zero =>
        simp only [getAtList] at hf
        refine ⟨0, p, f, ?_, ?_, fun _ => rfl⟩
        · simp only [shift]; exact rebase_succ_zero i rr p
        · rw [halt]; simpa [getAtList] using hf
      | succ j =>
        simp only [getAtList] at hf
        have hl2 : leads (i :: rr) (j :: p) = false := by
          simpa [shift, leads] using hl
        obtain ⟨j2, p2, f2, e1, e2, e3⟩ := ih2 (i :: rr) j p f hr2 hf hl2
        refine ⟨j2 + 1, p2, f2, ?_, ?_, e3⟩
        · simp only [shift]
          rw [rebase_succ, e1]; rfl
        · rw [halt]; simpa [getAtList] using e2

theorem getAtList_remove (s : Selector) (l : List Node) (r : List Nat) (j : Nat)
    (p : List Nat) (f : Element) (hr : pathOfList s l = some r)
    (hf : getAtList j p l = some f) (hl : leads r (j :: p) = false) :
    ∃ j2 p2 f2, rebase r (j :: p) = j2 :: p2
      ∧ getAtList j2 p2 (alterList s (fun _ => []) l) = some f2
      ∧ (countList s f.children = 0 → f2 = f) :=
  (getAt_remove_both s).2 l r j p f hr hf hl

/-- Removing the first match below the element at path `pm`: an element that is
not inside the removed one is found at its rebased path, unchanged when it holds
no match. -/
theorem getAt_modifyAt_remove (s : Selector) (m : Element) (r : List Nat)
    (hr : pathOfList s m.children = some r) :
    ∀ (pm p : List Nat) (n : Node) (f : Element), getAt pm n = some m →
      getAt p n = some f → leads (pm ++ r) p = false →
      ∃ f2, getAt (rebase (pm ++ r) p) (modifyAt (fun x => x.removeFirst s) pm n) = some f2
        ∧ (countList s f.children = 0 → f2 = f) := by
  obtain ⟨i0, r0, hr0⟩ := pathOfList_ne_nil s m.children r hr
  intro pm
  induction pm with
  | nil =>
    intro p n f hm hf hl
    cases n with
    | text d => simp [getAt] at hm
    | element t a cs =>
      simp only [getAt, Option.some.injEq] at hm
      subst hm
      simp only [List.nil_append] at hl ⊢
      simp only at hr
      cases p with
      | nil =>
        refine ⟨⟨t, a, alterList s (fun _ => []) cs⟩,
          by rw [rebase_nil]; simp [modifyAt, getAt, Element.toNode, Element.removeFirst], ?_⟩
        intro hc
        simp only [getAt, Option.some.injEq] at hf
        subst hf
        have := countList_pos_of_pathOfList s cs r hr
        simp only at hc
        omega
      | cons j p =>
        simp only [getAt] at hf
        obtain ⟨j2, p2, f2, e1, e2, e3⟩ := getAtList_remove s cs r j p f hr hf hl
        refine ⟨f2, ?_, e3⟩
        rw [e1]
        simpa [modifyAt, getAt, Element.toNode, Element.removeFirst] using e2
  | cons i pm ih =>
    intro p n f hm hf hl
    cases n with
    | text d => simp [getAt] at hm
    | element t a cs =>
      simp only [getAt] at hm
      have hne : (pm ++ r).isEmpty = false := by
        subst hr0
        cases pm <;> rfl
      cases p with
      | nil =>
        refine ⟨⟨t, a, modifyAtList (fun x => x.removeFirst s) i pm cs⟩,
          by rw [rebase_nil]; simp [modifyAt, getAt], ?_⟩
        intro hc
        simp only [getAt, Option.some.injEq] at hf
        subst hf
        simp only at hc
        have h1 := countList_pos_of_pathOfList s m.children r hr
        have h2 := countList_children_le s m
        have key : ∀ (l : List Node) (i : Nat), getAtList i pm l = some m →
            count s m.toNode ≤ countList s l := by
          intro l
          induction l with
          | nil => intro i h; simp [getAtList] at h
          | cons c cs ihl =>
            intro i h
            cases i with
            | zero =>
              simp only [getAtList] at h
              have := count_le_of_getAt s pm c m h
              simp only [countList]; omega
            | succ i =>
              simp only [getAtList] at h
              have := ihl i h
              simp only [countList]; omega
        have := key cs i hm
        omega
      | cons j p =>
        simp only [getAt] at hf
        have hreb : rebase (i :: pm ++ r) (j :: p)
            = j :: (if i = j then rebase (pm ++ r) p else p) := by
          by_cases hij : i = j <;> simp [rebase, hne, hij]
        rw [hreb]
        simp only [modifyAt, getAt]
        have key : ∀ (l : List Node) (i j : Nat), getAtList i pm l = some m →
            getAtList j p l = some f → leads (i :: pm ++ r) (j :: p) = false →
            ∃ f2, getAtList j (if i = j then rebase (pm ++ r) p else p)
                (modifyAtList (fun x => x.removeFirst s) i pm l) = some f2
              ∧ (countList s f.children = 0 → f2 = f) := by
          intro l
          induction l with
          | nil => intro i j h; simp [getAtList] at h
          | cons c cs ihl =>
            intro i j hm hf hl
            cases i with
            | zero =>
              cases j with
              | zero =>
                simp only [getAtList] at hm hf
                have hl2 : leads (pm ++ r) p = false := by simpa [leads] using hl
                simpa [modifyAtList, getAtList] using ih p c f hm hf hl2
              | succ j =>
                simp only [getAtList] at hf
                exact ⟨f, by simpa [modifyAtList, getAtList] using hf, fun _ => rfl⟩
            | succ i =>
              cases j with
              | zero =>
                simp only [getAtList] at hf
                exact ⟨f, by simpa [modifyAtList, getAtList] using hf, fun _ => rfl⟩
              | succ j =>
                simp only [getAtList] at hm hf
                have hl2 : leads (i :: pm ++ r) (j :: p) = false := by
                  simpa [leads] using hl
                have := ihl i j hm hf hl2
                simpa [modifyAtList, getAtList] using this
        exact key cs i j hm hf hl

end Node

namespace Node

theorem findList_append_of_none (s : Selector) (x : Node) (hx : find s x = none) :
    ∀ l : List Node, findList s (l ++ [x]) = findList s l
  | [] => by simp [findList, hx]
  | n :: ns => by
    cases hf : find s n with
    | none => simp [findList, hf, findList_append_of_none s x hx ns]
    | some r => simp [findList, hf]

theorem getAtList_append (x : Node) (q : List Nat) (m : Element) :
    ∀ (l : List Node) (i : Nat), getAtList i q l = some m → getAtList i q (l ++ [x]) = some m := by
  intro l
  induction l with
  | nil => intro i h; simp [getAtList] at h
  | cons c cs ih =>
    intro i h
    cases i with
    | zero => simpa [getAtList] using h
    | succ i =>
      simp only [getAtList] at h
      simpa [getAtList] using ih i h

/-- Appending, somewhere in a tree, a node that holds no match of `s` leaves the
attributes of the first match of `s` as they are. -/
theorem find_modifyAt_append (s : Selector) (x : Node) (hx : find s x = none) :
    ∀ (p : List Nat) (n : Node),
      (find s (modifyAt (fun e => e.appendChild x) p n)).map (fun b => b.attributes)
        = (find s n).map (fun b => b.attributes) := by
  intro p
  induction p with
  | nil =>
    intro n
    cases n with
    | text d => simp [modifyAt]
    | element t a cs =>
      by_cases hm : s.matches t a
      · simp [modifyAt, Element.appendChild, Element.toNode, find, hm]
      · simp [modifyAt, Element.appendChild, Element.toNode, find, hm,
          findList_append_of_none s x hx]
  | cons i p ih =>
    intro n
    cases n with
    | text d => simp [modifyAt]
    | element t a cs =>
      by_cases hm : s.matches t a
      · simp [modifyAt, find, hm]
      · simp only [modifyAt, find, hm]
        have key : ∀ (l : List Node) (i : Nat),
            (findList s (modifyAtList (fun e => e.appendChild x) i p l)).map
                (fun b => b.attributes)
              = (findList s l).map (fun b => b.attributes) := by
          intro l
          induction l with
          | nil => intro i; simp [modifyAtList]
          | cons c cs ihl =>
            intro i
            cases i with
            | zero =>
              have h1 := ih c
              simp only [modifyAtList, findList]
              cases hc : find s c with
              | none =>
                rw [hc] at h1
                have : find s (modifyAt (fun e => e.appendChild x) p c) = none := by
                  simpa using h1
                simp [this]
              | some r =>
                rw [hc] at h1
                cases hc2 : find s (modifyAt (fun e => e.appendChild x) p c) with
                | none => rw [hc2] at h1; simp at h1
                | some r2 => rw [hc2] at h1; simpa using h1
            | succ i =>
              simp only [modifyAtList, findList]
              cases hc : find s c with
              | none => simpa using ihl i
              | some r => simp
        exact key cs i

theorem findList_modifyAtList_append (s : Selector) (x : Node) (hx : find s x = none)
    (p : List Nat) :
    ∀ (l : List Node) (i : Nat),
      (findList s (modifyAtList (fun e => e.appendChild x) i p l)).map (fun b => b.attributes)
        = (findList s l).map (fun b => b.attributes) := by
  intro l
  induction l with
  | nil => intro i; simp [modifyAtList]
  | cons c cs ihl =>
    intro i
    cases i with
    | zero =>
      have h1 := find_modifyAt_append s x hx p c
      simp only [modifyAtList, findList]
      cases hc : find s c with
      | none =>
        rw [hc] at h1
        have : find s (modifyAt (fun e => e.appendChild x) p c) = none := by simpa using h1
        simp [this]
      | some r =>
        rw [hc] at h1
        cases hc2 : find s (modifyAt (fun e => e.appendChild x) p c) with
        | none => rw [hc2] at h1; simp at h1
        | some r2 => rw [hc2] at h1; simpa using h1
    | succ i =>
      simp only [modifyAtList, findList]
      cases hc : find s c with
      | none => simpa using ihl i
      | some r => simp

theorem alter_update_singleton (sel : Selector) (h : Element → Element) :
    ∀ n : Node, ∃ n2, alter sel (fun y => [(h y).toNode]) n = [n2] := by
  intro n
  cases n with
  | text d => exact ⟨.text d, by simp [alter]⟩
  | element t a cs =>
    by_cases hm : sel.matches t a
    · exact ⟨(h ⟨t, a, cs⟩).toNode, by simp [alter, hm]⟩
    · exact ⟨.element t a (alterList sel (fun y => [(h y).toNode]) cs), by simp [alter, hm]⟩

/-- A change of attributes of the first match of `sel` that keeps the classes:
every element of the forest is still at its path, with as many loading
indicators and results subtrees below it. -/
theorem getAt_update_both (sel : Selector) (h : Element → Element)
    (hc : ∀ y, (h y).children = y.children)
    (hcls : ∀ y c, (h y).isMatch (.cls c) = y.isMatch (.cls c)) :
    (∀ n : Node, ∀ (q : List Nat) (m : Element), getAt q n = some m →
        ∃ n2 m2, alter sel (fun y => [(h y).toNode]) n = [n2] ∧ getAt q n2 = some m2
          ∧ SameCounts m m2)
    ∧ (∀ l : List Node, ∀ (i : Nat) (q : List Nat) (m : Element), getAtList i q l = some m →
        ∃ m2, getAtList i q (alterList sel (fun y => [(h y).toNode]) l) = some m2
          ∧ SameCounts m m2) := by
  have hsame : ∀ (c : String) (l : List Node),
      countList (.cls c) (alterList sel (fun y => [(h y).toNode]) l) = countList (.cls c) l :=
    fun c l => countList_alter_same sel (.cls c) h (fun y => hcls y c) hc l
  apply induct
  · intro d q m hm
    cases q <;> simp [getAt] at hm
  · intro t a cs ih q m hm
    by_cases hsel : sel.matches t a
    · refine ⟨(h ⟨t, a, cs⟩).toNode, ?_⟩
      cases q with
      | nil =>
        simp only [getAt, Option.some.injEq] at hm
        subst hm
        refine ⟨h ⟨t, a, cs⟩, by simp [alter, hsel], by simp [Element.toNode, getAt], ?_⟩
        have := hc ⟨t, a, cs⟩
        simp only at this
        simp [SameCounts, Element.countAll, this]
      | cons i q =>
        simp only [getAt] at hm
        refine ⟨m, by simp [alter, hsel], ?_, ⟨rfl, rfl⟩⟩
        have := hc ⟨t, a, cs⟩
        simp only at this
        simpa [Element.toNode, getAt, this] using hm
    · refine ⟨.element t a (alterList sel (fun y => [(h y).toNode]) cs), ?_⟩
      cases q with
      | nil =>
        simp only [getAt, Option.some.injEq] at hm
        subst hm
        refine ⟨⟨t, a, alterList sel (fun y => [(h y).toNode]) cs⟩, by simp [alter, hsel],
          by simp [getAt], ?_⟩
        simp [SameCounts, Element.countAll, hsame]
      | cons i q =>
        simp only [getAt] at hm
        obtain ⟨m2, e1, e2⟩ := ih i q m hm
        exact ⟨m2, by simp [alter, hsel], by simpa [getAt] using e1, e2⟩
  · intro i q m hm
    simp [getAtList] at hm
  · intro n ns ih1 ih2 i q m hm
    by_cases hf : (find sel n).isSome
    · have halt : alterList sel (fun y => [(h y).toNode]) (n :: ns)
          = alter sel (fun y => [(h y).toNode]) n ++ ns := by simp [alterList, hf]
      cases i with
      | zero =>
        simp only [getAtList] at hm
        obtain ⟨n2, m2, e1, e2, e3⟩ := ih1 q m hm
        exact ⟨m2, by rw [halt, e1]; simpa [getAtList] using e2, e3⟩
      | succ i =>
        simp only [getAtList] at hm
        obtain ⟨n2, e1⟩ := alter_update_singleton sel h n
        exact ⟨m, by rw [halt, e1]; simpa [getAtList] using hm, ⟨rfl, rfl⟩⟩
    · have hnone : find sel n = none := by simpa using hf
      have halt : alterList sel (fun y => [(h y).toNode]) (n :: ns)
          = n :: alterList sel (fun y => [(h y).toNode]) ns := by simp [alterList, hnone]
      cases i with
      | zero =>
        simp only [getAtList] at hm
        exact ⟨m, by rw [halt]; simpa [getAtList] using hm, ⟨rfl, rfl⟩⟩
      | succ i =>
        simp only [getAtList] at hm
        obtain ⟨m2, e1, e2⟩ := ih2 i q m hm
        exact ⟨m2, by rw [halt]; simpa [getAtList] using e1, e2⟩

theorem count_le_of_find (s s2 : Selector) (n : Node) (r : Element) (h : find s n = some r) :
    count s2 r.toNode ≤ count s2 n := by
  cases hp : pathOf s n with
  | none => rw [(pathOf_spec s n).2 hp] at h; cases h
  | some p =>
    have := ((pathOf_spec s n).1 p hp).1
    rw [h] at this
    exact count_le_of_getAt s2 p n r this

/-- After the first disabled button is enabled, the first button is not disabled. -/
theorem hasAttribute_find_enable_both (t k : String) :
    (∀ n : Node, ∀ b : Element,
        findList (.tag t)
          (alter (.tagAttr t k) (fun y => [(Element.removeAttribute k y).toNode]) n) = some b →
        b.hasAttribute k = false)
    ∧ (∀ l : List Node, ∀ b : Element,
        findList (.tag t)
          (alterList (.tagAttr t k) (fun y => [(Element.removeAttribute k y).toNode]) l)
            = some b →
        b.hasAttribute k = false) := by
  apply induct
  · intro d b hb
    simp [alter, findList, find] at hb
  · intro t0 a cs ih b hb
    by_cases hsel : (Selector.tagAttr t k).matches t0 a
    · have htag : t0 = t := by
        simp only [Selector.matches, Bool.and_eq_true, beq_iff_eq] at hsel
        exact hsel.1
      have hfind : find (.tag t) (Element.removeAttribute k ⟨t0, a, cs⟩).toNode
          = some (Element.removeAttribute k ⟨t0, a, cs⟩) :=
        find_of_isMatch _ _ (by simp [Element.isMatch, Element.removeAttribute,
          Selector.matches, htag])
      simp only [alter, hsel, if_true, findList, hfind, Option.some.injEq] at hb
      subst hb
      exact Element.hasAttribute_removeAttribute k _
    · simp only [alter, hsel, findList, find] at hb
      by_cases htag : (Selector.tag t).matches t0 a
      · simp only [htag, if_true, Option.some.injEq] at hb
        subst hb
        simp only [Element.hasAttribute]
        cases hl : (List.lookup k a).isSome with
        | false => rfl
        | true =>
          exfalso
          apply hsel
          simp only [Selector.matches] at htag
          simp [Selector.matches, htag, hl]
      · simp only [htag] at hb
        cases hc : findList (.tag t)
            (alterList (.tagAttr t k) (fun y => [(Element.removeAttribute k y).toNode]) cs) with
        | none => simp [hc] at hb
        | some r =>
          rw [hc] at hb
          cases hb
          exact ih b hc
  · intro b hb
    simp [alterList, findList] at hb
  · intro n ns ih1 ih2 b hb
    by_cases hf : (find (.tagAttr t k) n).isSome
    · have h1 := find_isSome_alter (.tagAttr t k) (.tag t) (Element.removeAttribute k)
        (fun x hx => by
          simp only [Element.isMatch, Selector.matches, Bool.and_eq_true, beq_iff_eq] at hx
          simp [Element.isMatch, Element.removeAttribute, Selector.matches, hx.1]) n hf
      simp only [alterList, hf, if_true] at hb
      cases hc : findList (.tag t)
          (alter (.tagAttr t k) (fun y => [(Element.removeAttribute k y).toNode]) n) with
      | none => rw [hc] at h1; cases h1
      | some r =>
        rw [findList_append_of_some _ _ ns r hc] at hb
        cases hb
        exact ih1 b hc
    · have hnone : find (.tagAttr t k) n = none := by simpa using hf
      simp only [alterList, hnone, Option.isSome_none, findList] at hb
      cases hc : find (.tag t) n with
      | some r =>
        rw [hc] at hb
        cases hb
        have hcount := (find_eq_none_iff (.tagAttr t k) n).mp hnone
        have hle := count_le_of_find (.tag t) (.tagAttr t k) n b hc
        have hm := find_isMatch (.tag t) n b hc
        cases hh : b.hasAttribute k with
        | false => rfl
        | true =>
          have : (Selector.tagAttr t k).matches b.tag b.attributes = true := by
            simp only [Element.isMatch, Selector.matches, beq_iff_eq] at hm
            simp only [Element.hasAttribute] at hh
            simp [Selector.matches, hm, hh]
          have : 0 < count (.tagAttr t k) b.toNode := by
            simp [Element.toNode, count, this]
          omega
      | none =>
        simp [hc] at hb
        exact ih2 b hb

end Node

/-! ## Lemmas on references -/

namespace Element

theorem toNode_modifyAt (e : Element) (p : List Nat) (g : Element → Element) :
    (e.modifyAt p g).toNode = Node.modifyAt g p e.toNode := by
  cases p <;> simp [modifyAt, Node.modifyAt, toNode]

theorem getAt_modifyAt_same (e : Element) (p : List Nat) (g : Element → Element) :
    (e.modifyAt p g).getAt p = (e.getAt p).map g := by
  simp only [getAt, toNode_modifyAt]
  exact Node.getAt_modifyAt g p e.toNode

theorem getAt_pathOf (e : Element) (s : Selector) (p : List Nat) (h : e.pathOf s = some p) :
    e.getAt p = e.querySelector s := by
  obtain ⟨i, q, hq, h1, _⟩ := (Node.pathOfList_spec s e.children).1 p h
  subst hq
  simpa [getAt, toNode, Node.getAt, querySelector] using h1

theorem lookup_setAttr_ne (k v k2 : String) (hne : k ≠ k2) :
    ∀ a : List (String × String), (setAttr k v a).lookup k2 = a.lookup k2
  | [] => by
    have : (k2 == k) = false := by simpa using fun e : k2 = k => hne e.symm
    simp [setAttr, List.lookup, this]
  | (k3, v3) :: rest => by
    by_cases h : k3 = k
    · subst h
      have : (k2 == k3) = false := by simpa using fun e : k2 = k3 => hne e.symm
      simp [setAttr, List.lookup, this]
    · by_cases h2 : k2 = k3
      · subst h2; simp [setAttr, h, List.lookup]
      · have hb : (k2 == k3) = false := by simpa using h2
        simp [setAttr, h, List.lookup, hb, lookup_setAttr_ne k v k2 hne rest]

theorem lookup_filter_other (k k2 : String) (hne : k ≠ k2) :
    ∀ a : List (String × String), (a.filter (fun p => !(p.1 == k))).lookup k2 = a.lookup k2
  | [] => rfl
  | (k3, v3) :: rest => by
    by_cases h : k3 = k
    · subst h
      have h3 : (!(k3 == k3)) = false := by simp
      have hb : (k2 == k3) = false := by simpa using fun e : k2 = k3 => hne e.symm
      simp only [List.filter, h3, List.lookup, hb]
      exact lookup_filter_other k3 k2 hne rest
    · have h3 : (!(k3 == k)) = true := by simpa using h
      simp only [List.filter, h3, List.lookup]
      rw [lookup_filter_other k k2 hne rest]

theorem isMatch_cls_setAttribute (v c : String) (y : Element) :
    (setAttribute "disabled" v y).isMatch (.cls c) = y.isMatch (.cls c) := by
  simp [isMatch, setAttribute, Selector.matches, classList,
    lookup_setAttr_ne "disabled" v "class" (by decide)]

theorem isMatch_cls_removeAttribute (c : String) (y : Element) :
    (removeAttribute "disabled" y).isMatch (.cls c) = y.isMatch (.cls c) := by
  simp [isMatch, removeAttribute, Selector.matches, classList,
    lookup_filter_other "disabled" "class" (by decide)]

end Element

/-- Reading at a path after a change of attributes of a button somewhere in the
tree: the element is still there, with the same counts. -/
theorem getAt_modifyAt_update (sel : Selector) (h : Element → Element)
    (hc : ∀ y, (h y).children = y.children)
    (hcls : ∀ y c, (h y).isMatch (.cls c) = y.isMatch (.cls c))
    (q p : List Nat) (n : Node) (m : Element) (hm : Node.getAt q n = some m) :
    ∃ m2, Node.getAt q (Node.modifyAt (fun f => f.updateFirst sel h) p n) = some m2
      ∧ SameCounts m m2 := by
  have hsame : ∀ (c : String) (l : List Node),
      Node.countList (.cls c) (Node.alterList sel (fun y => [(h y).toNode]) l)
        = Node.countList (.cls c) l :=
    fun c l => Node.countList_alter_same sel (.cls c) h (fun y => hcls y c) hc l
  have hcount : ∀ (c : String) (x : Element),
      Node.count (.cls c) (x.updateFirst sel h).toNode = Node.count (.cls c) x.toNode := by
    intro c x
    show Node.count (.cls c) (.element x.tag x.attributes
        (Node.alterList sel (fun y => [(h y).toNode]) x.children))
      = Node.count (.cls c) (.element x.tag x.attributes x.children)
    simp only [Node.count, hsame]
  refine Node.getAt_modifyAt_rel _ SameCounts (fun _ => ⟨rfl, rfl⟩) ?_ ?_ ?_ q p n m hm
  · intro x
    simp [SameCounts, Element.countAll, Element.updateFirst, hsame]
  · intro x i q m hm
    exact (Node.getAt_update_both sel h hc hcls).2 x.children i q m hm
  · intro t a cs i p
    simp only [SameCounts, Element.countAll]
    exact ⟨Node.countList_modifyAtList _ _ (hcount _) p cs i,
      Node.countList_modifyAtList _ _ (hcount _) p cs i⟩

/-- Reading at a path after a node without buttons is appended somewhere in the
tree: the element is still there, with the same first button. -/
theorem getAt_modifyAt_append (x : Node) (hx : Node.find (.tag "button") x = none)
    (q p : List Nat) (n : Node) (f : Element) (hf : Node.getAt q n = some f) :
    ∃ f2, Node.getAt q (Node.modifyAt (fun e => e.appendChild x) p n) = some f2
      ∧ SameButton f f2 := by
  refine Node.getAt_modifyAt_rel _ SameButton (fun _ => rfl) ?_ ?_ ?_ q p n f hf
  · intro y
    simp [SameButton, Element.querySelector, Element.appendChild,
      Node.findList_append_of_none _ x hx]
  · intro y i q m hm
    exact ⟨m, by simpa [Element.appendChild] using Node.getAtList_append x q m y.children i hm,
      rfl⟩
  · intro t a cs i p
    simp only [SameButton, Element.querySelector]
    exact Node.findList_modifyAtList_append _ x hx p cs i

theorem sameButton_isSome (f f2 : Element) (h : SameButton f f2) :
    (f2.querySelector (.tag "button")).isSome = (f.querySelector (.tag "button")).isSome := by
  unfold SameButton at h
  cases h1 : f.querySelector (.tag "button") <;> cases h2 : f2.querySelector (.tag "button") <;>
    simp [h1, h2] at h ⊢

theorem sameButton_buttonDisabled (f f2 : Element) (h : SameButton f f2) :
    buttonDisabled (some f2) = buttonDisabled (some f) := by
  unfold SameButton at h
  cases h1 : f.querySelector (.tag "button") <;> cases h2 : f2.querySelector (.tag "button") <;>
    simp [h1, h2] at h ⊢ <;> simp [buttonDisabled, h1, h2, Element.hasAttribute, h]

theorem buttonDisabled_disableButton (f : Element) :
    buttonDisabled (some (disableButton f)) = (f.querySelector (.tag "button")).isSome := by
  have h3 := Node.findList_alter (.tag "button") (Element.setAttribute "disabled" "disabled")
    (fun x h => Element.isMatch_tag_setAttribute _ _ _ x h) f.children
  simp only [buttonDisabled, disableButton, Element.querySelector, Element.updateFirst, h3]
  cases hb : Node.findList (.tag "button") f.children with
  | none => rfl
  | some b => simp [Element.hasAttribute_setAttribute]

theorem buttonDisabled_enableButton (f : Element) :
    buttonDisabled (some (enableButton f)) = false := by
  simp only [buttonDisabled, enableButton, Element.querySelector, Element.updateFirst]
  cases hb : Node.findList (.tag "button") (Node.alterList (.tagAttr "button" "disabled")
      (fun x => [(Element.removeAttribute "disabled" x).toNode]) f.children) with
  | none => rfl
  | some b => exact (Node.hasAttribute_find_enable_both "button" "disabled").2 _ b hb

/-! ### The steps of the flows on a container -/

theorem updateForm_disable (c m f : Element) (pm : List Nat) (ref : FormRef)
    (hm : c.getAt pm = some m) (hf : ref.get c = some f) :
    ∃ c2 ref2 m2, updateForm c disableButton (some ref) = (c2, some ref2)
      ∧ ref2.get c2 = some (disableButton f)
      ∧ c2.getAt pm = some m2 ∧ SameCounts m m2 := by
  cases ref with
  | detached g =>
    simp only [FormRef.get, Option.some.injEq] at hf
    subst hf
    exact ⟨c, _, m, rfl, rfl, hm, ⟨rfl, rfl⟩⟩
  | attached p =>
    simp only [FormRef.get] at hf
    obtain ⟨m2, e1, e2⟩ := getAt_modifyAt_update (.tag "button")
      (Element.setAttribute "disabled" "disabled") (fun _ => rfl)
      (fun y c => Element.isMatch_cls_setAttribute _ c y) pm p c.toNode m hm
    refine ⟨c.modifyAt p disableButton, _, m2, rfl, ?_, ?_, e2⟩
    · simp [FormRef.get, Element.getAt_modifyAt_same, hf]
    · simpa [Element.getAt, Element.toNode_modifyAt, disableButton] using e1

theorem updateForm_enable (c m f : Element) (pm : List Nat) (ref : FormRef)
    (hm : c.getAt pm = some m) (hf : ref.get c = some f) :
    ∃ c2 ref2 m2, updateForm c enableButton (some ref) = (c2, some ref2)
      ∧ ref2.get c2 = some (enableButton f)
      ∧ c2.getAt pm = some m2 ∧ SameCounts m m2 := by
  cases ref with
  | detached g =>
    simp only [FormRef.get, Option.some.injEq] at hf
    subst hf
    exact ⟨c, _, m, rfl, rfl, hm, ⟨rfl, rfl⟩⟩
  | attached p =>
    simp only [FormRef.get] at hf
    obtain ⟨m2, e1, e2⟩ := getAt_modifyAt_update (.tagAttr "button" "disabled")
      (Element.removeAttribute "disabled") (fun _ => rfl)
      (fun y c => Element.isMatch_cls_removeAttribute c y) pm p c.toNode m hm
    refine ⟨c.modifyAt p enableButton, _, m2, rfl, ?_, ?_, e2⟩
    · simp [FormRef.get, Element.getAt_modifyAt_same, hf]
    · simpa [Element.getAt, Element.toNode_modifyAt, enableButton] using e1

theorem append_spec (c m f : Element) (pm : List Nat) (ref : FormRef) (x : Element)
    (hx : Node.find (.tag "button") x.toNode = none)
    (hm : c.getAt pm = some m) (hf : ref.get c = some f) :
    (c.modifyAt pm (fun e => e.appendChild x.toNode)).getAt pm = some (m.appendChild x.toNode)
      ∧ ∃ f2, ref.get (c.modifyAt pm (fun e => e.appendChild x.toNode)) = some f2
          ∧ SameButton f f2 := by
  constructor
  · simp [Element.getAt_modifyAt_same, hm]
  · cases ref with
    | detached g =>
      simp only [FormRef.get, Option.some.injEq] at hf
      subst hf
      exact ⟨g, rfl, rfl⟩
    | attached p =>
      simp only [FormRef.get] at hf
      obtain ⟨f2, e1, e2⟩ := getAt_modifyAt_append x.toNode hx p pm c.toNode f hf
      exact ⟨f2, by simpa [FormRef.get, Element.getAt, Element.toNode_modifyAt] using e1, e2⟩

theorem removeIn_spec (c m f : Element) (pm : List Nat) (s : Selector) (ref : FormRef)
    (hm : c.getAt pm = some m) (hf : ref.get c = some f) :
    ∃ c2 ref2 f2, removeIn c pm s (some ref) = (c2, some ref2)
      ∧ c2.getAt pm = some (m.removeFirst s)
      ∧ ref2.get c2 = some f2
      ∧ (f.countAll s = 0 → f2 = f) := by
  cases hp : m.pathOf s with
  | none =>
    have h0 : m.countAll s = 0 := Node.countList_zero_of_pathOfList s m.children hp
    refine ⟨c, ref, f, by simp [removeIn, hm, hp], ?_, hf, fun _ => rfl⟩
    rw [Element.removeFirst_of_count_zero s m h0]
    exact hm
  | some r =>
    have hc2 : (c.modifyAt pm (fun x => x.removeFirst s)).getAt pm = some (m.removeFirst s) := by
      simp [Element.getAt_modifyAt_same, hm]
    cases ref with
    | detached g =>
      simp only [FormRef.get, Option.some.injEq] at hf
      subst hf
      exact ⟨_, .detached g, g, by simp [removeIn, hm, hp], hc2, rfl, fun _ => rfl⟩
    | attached p =>
      simp only [FormRef.get] at hf
      by_cases hl : leads (pm ++ r) p = true
      · exact ⟨_, .detached f, f, by simp [removeIn, hm, hp, hl, hf], hc2, rfl, fun _ => rfl⟩
      · have hl2 : leads (pm ++ r) p = false := by simpa using hl
        obtain ⟨f2, e1, e2⟩ := Node.getAt_modifyAt_remove s m r hp pm p c.toNode f hm hf hl2
        refine ⟨_, .attached (rebase (pm ++ r) p), f2, by simp [removeIn, hm, hp, hl2], hc2,
          ?_, e2⟩
        simpa [FormRef.get, Element.getAt, Element.toNode_modifyAt] using e1

theorem find_button_loadingEl : Node.find (.tag "button") loadingEl.toNode = none := rfl

theorem count_resultRow_button (r : Launch) :
    Node.count (.tag "button") (resultRow r).toNode = 0 := rfl

theorem find_button_createSearchResults (results : Option (List Launch)) (q : String)
    (table : Element) (h : createSearchResults results q = .ok table) :
    Node.find (.tag "button") table.toNode = none := by
  rw [Node.find_eq_none_iff]
  cases results with
  | none => rw [createSearchResults_null] at h; cases h
  | some rs =>
    cases rs with
    | nil =>
      rw [createSearchResults_empty] at h
      cases h
      rfl
    | cons r rs =>
      rw [createSearchResults_cons] at h
      cases h
      have h1 := countList_rows _ count_resultRow_button (r :: rs)
      have e3 : Node.count (.tag "button") taflaHeader.toNode = 0 := rfl
      have u1 : ∀ (s : Selector) (l : List Node),
          Node.count s (el "table" [("class", "searchResults")] (taflaHeader.toNode :: l)).toNode
            = (if s.matches "table" [("class", "searchResults")] = true then 1 else 0)
              + (Node.count s taflaHeader.toNode + Node.countList s l) := fun _ _ => rfl
      rw [u1, e3, h1]; rfl

theorem setLoadingIn_spec (c m f : Element) (pm : List Nat) (ref : FormRef)
    (hm : c.getAt pm = some m) (hf : ref.get c = some f)
    (hl : m.countAll (.cls "loading") ≤ 1) :
    ∃ (c2 m2 f2 : Element) (ref2 : FormRef),
      setLoadingIn c pm (some ref) = (c2, some ref2)
      ∧ c2.getAt pm = some m2
      ∧ m2.countAll (.cls "loading") = 1
      ∧ m2.countAll (.cls "searchResults") = m.countAll (.cls "searchResults")
      ∧ ref2.get c2 = some (disableButton f2)
      ∧ SameButton f f2 := by
  by_cases h0 : m.countAll (.cls "loading") = 0
  · have hq : m.querySelector (.cls "loading") = none :=
      (Element.querySelector_eq_none_iff _ m).mpr h0
    obtain ⟨a1, f2, a2, a3⟩ := append_spec c m f pm ref loadingEl find_button_loadingEl hm hf
    obtain ⟨c2, ref2, m2, b1, b2, b3, b4⟩ := updateForm_disable _ _ f2 pm ref a1 a2
    refine ⟨c2, m2, f2, ref2, ?_, b3, ?_, ?_, b2, a3⟩
    · have e : (c.getAt pm).bind (fun e => e.querySelector (.cls "loading")) = none := by
        rw [hm]; exact hq
      simp only [setLoadingIn, e]
      exact b1
    · rw [b4.1, Element.countAll_appendChild, h0, count_loadingEl_loading]
    · rw [b4.2, Element.countAll_appendChild, count_loadingEl_searchResults]; rfl
  · have hq : ∃ x, m.querySelector (.cls "loading") = some x := by
      cases hx : m.querySelector (.cls "loading") with
      | none => exact absurd ((Element.querySelector_eq_none_iff _ m).mp hx) h0
      | some x => exact ⟨x, rfl⟩
    obtain ⟨x, hx⟩ := hq
    obtain ⟨c2, ref2, m2, b1, b2, b3, b4⟩ := updateForm_disable c m f pm ref hm hf
    refine ⟨c2, m2, f, ref2, ?_, b3, ?_, b4.2, b2, rfl⟩
    · have e : (c.getAt pm).bind (fun e => e.querySelector (.cls "loading")) = some x := by
        rw [hm]; exact hx
      simp only [setLoadingIn, e]
      exact b1
    · rw [b4.1]; omega

theorem setNotLoadingIn_spec (c m f : Element) (pm : List Nat) (ref : FormRef)
    (hm : c.getAt pm = some m) (hf : ref.get c = some f)
    (hl : m.countAll (.cls "loading") ≤ 1) :
    ∃ (c2 m2 f2 : Element) (ref2 : FormRef),
      setNotLoadingIn c pm (some ref) = (c2, some ref2)
      ∧ c2.getAt pm = some m2
      ∧ m2.countAll (.cls "loading") = 0
      ∧ m2.countAll (.cls "searchResults") ≤ m.countAll (.cls "searchResults")
      ∧ ref2.get c2 = some (enableButton f2) := by
  obtain ⟨c1, ref1, f1, a1, a2, a3, _⟩ := removeIn_spec c m f pm (.cls "loading") ref hm hf
  obtain ⟨c2, ref2, m2, b1, b2, b3, b4⟩ := updateForm_enable c1 _ f1 pm ref1 a2 a3
  refine ⟨c2, m2, f1, ref2, ?_, b3, ?_, ?_, b2⟩
  · simp only [setNotLoadingIn, a1]
    exact b1
  · rw [b4.1]; exact Element.countAll_removeFirst_zero _ m hl
  · rw [b4.2]; exact Element.countAll_removeFirst_le _ _ m

theorem enter_spec (c m f : Element) (pm : List Nat) (ref : FormRef)
    (hm : c.getAt pm = some m) (hf : ref.get c = some f)
    (hl : m.countAll (.cls "loading") ≤ 1) :
    ∃ (c2 m2 f1 f2 : Element) (ref2 : FormRef),
      searchAndRender.enter c pm (some ref) = (c2, some ref2)
      ∧ c2.getAt pm = some m2
      ∧ m2.countAll (.cls "loading") = 1
      ∧ m2.countAll (.cls "searchResults")
          = (m.removeFirst (.cls "searchResults")).countAll (.cls "searchResults")
      ∧ ref2.get c2 = some (disableButton f2)
      ∧ SameButton f1 f2
      ∧ (f.countAll (.cls "searchResults") = 0 → f1 = f) := by
  obtain ⟨c1, ref1, f1, a1, a2, a3, a4⟩ :=
    removeIn_spec c m f pm (.cls "searchResults") ref hm hf
  have hl1 : (m.removeFirst (.cls "searchResults")).countAll (.cls "loading") ≤ 1 := by
    have := Element.countAll_removeFirst_le (.cls "searchResults") (.cls "loading") m
    omega
  obtain ⟨c2, m2, f2, ref2, b1, b2, b3, b4, b5, b6⟩ :=
    setLoadingIn_spec c1 _ f1 pm ref1 a2 a3 hl1
  refine ⟨c2, m2, f1, f2, ref2, ?_, b2, b3, b4, b5, b6, a4⟩
  simp only [searchAndRender.enter, a1]
  exact b1

theorem leave_spec (c m f : Element) (pm : List Nat) (ref : FormRef)
    (results : Option (List Launch)) (q : String)
    (hm : c.getAt pm = some m) (hf : ref.get c = some f)
    (hl : m.countAll (.cls "loading") ≤ 1) :
    ∃ (c2 m2 m3 f2 : Element) (ref2 : FormRef) (res : Except String Unit),
      searchAndRender.leave c pm (some ref) results q = ((c2, some ref2), res)
      ∧ c2.getAt pm = some m2
      ∧ m2.countAll (.cls "loading") = 0
      ∧ ref2.get c2 = some f2
      ∧ buttonDisabled (some f2) = false
      ∧ m3.countAll (.cls "searchResults") ≤ m.countAll (.cls "searchResults")
      ∧ (∀ table, createSearchResults results q = .ok table →
          res = .ok () ∧ m2 = m3.appendChild table.toNode) := by
  obtain ⟨c1, m1, f1, ref1, a1, a2, a3, a4, a5⟩ := setNotLoadingIn_spec c m f pm ref hm hf hl
  cases hc : createSearchResults results q with
  | error e =>
    refine ⟨c1, m1, m1, enableButton f1, ref1, .error e, ?_, a2, a3, a5,
      buttonDisabled_enableButton f1, a4, ?_⟩
    · simp only [searchAndRender.leave, a1, hc]
    · intro table ht; cases ht
  | ok table =>
    obtain ⟨b1, f2, b2, b3⟩ := append_spec c1 m1 (enableButton f1) pm ref1 table
      (find_button_createSearchResults results q table hc) a2 a5
    refine ⟨_, m1.appendChild table.toNode, m1, f2, ref1, .ok (), ?_, b1, ?_, b2, ?_, a4, ?_⟩
    · simp only [searchAndRender.leave, a1, hc]
    · rw [Element.countAll_appendChild, a3, (count_createSearchResults results q table hc).2]
    · rw [sameButton_buttonDisabled _ _ b3]; exact buttonDisabled_enableButton f1
    · intro t2 ht
      cases ht
      exact ⟨rfl, rfl⟩

theorem searchAndRender_resolved (parent : Element) (pm : List Nat) (form : Option FormRef)
    (q : String) (results : Option (List Launch))
    (hm : parent.pathOf (.tag "main") = some pm) :
    searchAndRender parent form q (.resolved results)
      = { parentElement := (searchAndRender.leave (searchAndRender.enter parent pm form).1 pm
            (searchAndRender.enter parent pm form).2 results q).1.1,
          searchForm := (searchAndRender.leave (searchAndRender.enter parent pm form).1 pm
            (searchAndRender.enter parent pm form).2 results q).1.2,
          calls := [q], warnings := [],
          result := (searchAndRender.leave (searchAndRender.enter parent pm form).1 pm
            (searchAndRender.enter parent pm form).2 results q).2 } := by
  unfold searchAndRender
  rw [hm]

theorem searchAndRender_rejected (parent : Element) (pm : List Nat) (form : Option FormRef)
    (q reason : String) (hm : parent.pathOf (.tag "main") = some pm) :
    searchAndRender parent form q (.rejected reason)
      = { parentElement := (searchAndRender.enter parent pm form).1,
          searchForm := (searchAndRender.enter parent pm form).2,
          calls := [q], warnings := [], result := .error reason } := by
  unfold searchAndRender
  rw [hm]

theorem searchAndRender_pending (parent : Element) (pm : List Nat) (form : Option FormRef)
    (q : String) (hm : parent.pathOf (.tag "main") = some pm) :
    searchAndRender.pending parent form q
      = some ((searchAndRender.enter parent pm form).1,
          (searchAndRender.enter parent pm form).2, [q]) := by
  unfold searchAndRender.pending
  rw [hm]

theorem querySelector_disableButton (f : Element) :
    ((disableButton f).querySelector (.tag "button")).isSome
      = (f.querySelector (.tag "button")).isSome := by
  have h3 := Node.findList_alter (.tag "button") (Element.setAttribute "disabled" "disabled")
    (fun x h => Element.isMatch_tag_setAttribute _ _ _ x h) f.children
  simp only [disableButton, Element.querySelector, Element.updateFirst, h3]
  cases Node.findList (.tag "button") f.children <;> rfl

theorem countList_texts (s : Selector) :
    ∀ texts : List String, Node.countList s (texts.map Node.text) = 0
  | [] => rfl
  | t :: ts => by simp [Node.countList, Node.count, countList_texts s ts]

/-! ## A form outside the container -/

namespace Node

theorem modifyAt_congr (g g2 : Element → Element) :
    ∀ (p : List Nat) (n : Node), (∀ x, getAt p n = some x → g x = g2 x) →
      modifyAt g p n = modifyAt g2 p n := by
  intro p
  induction p with
  | nil =>
    intro n h
    cases n with
    | text d => simp [modifyAt]
    | element t a cs => simp [modifyAt, h ⟨t, a, cs⟩ (by simp [getAt])]
  | cons i p ih =>
    intro n h
    cases n with
    | text d => simp [modifyAt]
    | element t a cs =>
      simp only [getAt] at h
      simp only [modifyAt, Node.element.injEq, true_and]
      have key : ∀ (l : List Node) (i : Nat), (∀ x, getAtList i p l = some x → g x = g2 x) →
          modifyAtList g i p l = modifyAtList g2 i p l := by
        intro l
        induction l with
        | nil => intro i h; simp [modifyAtList]
        | cons c cs ihl =>
          intro i h
          cases i with
          | zero =>
            simp only [getAtList] at h
            simp [modifyAtList, ih c h]
          | succ i =>
            simp only [getAtList] at h
            simp [modifyAtList, ihl i h]
      exact key cs i h

theorem modifyAt_modifyAt (g g2 : Element → Element) :
    ∀ (p : List Nat) (n : Node),
      modifyAt g2 p (modifyAt g p n) = modifyAt (fun x => g2 (g x)) p n := by
  intro p
  induction p with
  | nil =>
    intro n
    cases n with
    | text d => simp [modifyAt]
    | element t a cs => simp [modifyAt, Element.toNode]
  | cons i p ih =>
    intro n
    cases n with
    | text d => simp [modifyAt]
    | element t a cs =>
      simp only [modifyAt, Node.element.injEq, true_and]
      have key : ∀ (l : List Node) (i : Nat),
          modifyAtList g2 i p (modifyAtList g i p l)
            = modifyAtList (fun x => g2 (g x)) i p l := by
        intro l
        induction l with
        | nil => intro i; simp [modifyAtList]
        | cons c cs ihl =>
          intro i
          cases i with
          | zero => simp [modifyAtList, ih c]
          | succ i => simp [modifyAtList, ihl i]
      exact key cs i

theorem modifyAt_id : ∀ (p : List Nat) (n : Node), modifyAt (fun x => x) p n = n := by
  intro p
  induction p with
  | nil =>
    intro n
    cases n with
    | text d => simp [modifyAt]
    | element t a cs => simp [modifyAt, Element.toNode]
  | cons i p ih =>
    intro n
    cases n with
    | text d => simp [modifyAt]
    | element t a cs =>
      simp only [modifyAt, Node.element.injEq, true_and]
      have key : ∀ (l : List Node) (i : Nat), modifyAtList (fun x => x) i p l = l := by
        intro l
        induction l with
        | nil => intro i; simp [modifyAtList]
        | cons c cs ihl =>
          intro i
          cases i with
          | zero => simp [modifyAtList, ih c]
          | succ i => simp [modifyAtList, ihl i]
      exact key cs i

end Node

namespace Element

theorem toNode_injective (e e2 : Element) (h : e.toNode = e2.toNode) : e = e2 := by
  cases e; cases e2
  simp only [toNode, Node.element.injEq] at h
  simp [h]

theorem modifyAt_congr_of_getAt (e : Element) (p : List Nat) (g g2 : Element → Element)
    (h : ∀ x, e.getAt p = some x → g x = g2 x) : e.modifyAt p g = e.modifyAt p g2 :=
  toNode_injective _ _ (by
    rw [toNode_modifyAt, toNode_modifyAt]
    exact Node.modifyAt_congr g g2 p e.toNode h)

theorem modifyAt_twice (e : Element) (p : List Nat) (g g2 : Element → Element) :
    (e.modifyAt p g).modifyAt p g2 = e.modifyAt p (fun x => g2 (g x)) :=
  toNode_injective _ _ (by
    rw [toNode_modifyAt, toNode_modifyAt, toNode_modifyAt]
    exact Node.modifyAt_modifyAt g g2 p e.toNode)

theorem modifyAt_same_id (e : Element) (p : List Nat) : e.modifyAt p (fun x => x) = e :=
  toNode_injective _ _ (by rw [toNode_modifyAt]; exact Node.modifyAt_id p e.toNode)

end Element

/-- For a form outside the container, the steps of `searchAndRender` up to the
`await` are those of `searchAndRender.before` on the main region and the form. -/
theorem enter_detached (c m f : Element) (pm : List Nat) (hm : c.getAt pm = some m) :
    searchAndRender.enter c pm (some (.detached f))
      = (c.modifyAt pm (fun x => (searchAndRender.before x (some f)).1),
          (searchAndRender.before m (some f)).2.map FormRef.detached) := by
  have h1 : removeIn c pm (.cls "searchResults") (some (.detached f))
      = (c.modifyAt pm (fun x => x.removeFirst (.cls "searchResults")),
          some (.detached f)) := by
    cases hp : m.pathOf (.cls "searchResults") with
    | none =>
      have h0 : m.countAll (.cls "searchResults") = 0 :=
        Node.countList_zero_of_pathOfList _ m.children hp
      have : c.modifyAt pm (fun x => x.removeFirst (.cls "searchResults")) = c := by
        rw [Element.modifyAt_congr_of_getAt c pm _ (fun x => x) (fun x hx => by
          rw [hm] at hx; cases hx
          exact Element.removeFirst_of_count_zero _ m h0), Element.modifyAt_same_id]
      simp [removeIn, hm, hp, this]
    | some r => simp [removeIn, hm, hp]
  have hm1 : (c.modifyAt pm (fun x => x.removeFirst (.cls "searchResults"))).getAt pm
      = some (m.removeFirst (.cls "searchResults")) := by
    simp [Element.getAt_modifyAt_same, hm]
  have h2 : ∀ (c1 m1 : Element), c1.getAt pm = some m1 →
      setLoadingIn c1 pm (some (.detached f))
        = (c1.modifyAt pm (fun x => (setLoading x (some f)).1),
            some (.detached (disableButton f))) := by
    intro c1 m1 hc1
    have hb : (c1.getAt pm).bind (fun e => e.querySelector (.cls "loading"))
        = m1.querySelector (.cls "loading") := by rw [hc1]; rfl
    unfold setLoadingIn
    rw [hb]
    cases hq : m1.querySelector (.cls "loading") with
    | none =>
      show updateForm (c1.modifyAt pm (fun e => e.appendChild loadingEl)) disableButton
        (some (.detached f)) = _
      rw [Element.modifyAt_congr_of_getAt c1 pm (fun e => e.appendChild loadingEl)
        (fun x => (setLoading x (some f)).1) (fun x hx => by
          rw [hc1] at hx; cases hx
          simp [setLoading, hq])]
      rfl
    | some y =>
      show updateForm c1 disableButton (some (.detached f)) = _
      rw [Element.modifyAt_congr_of_getAt c1 pm (fun x => (setLoading x (some f)).1) (fun x => x)
        (fun x hx => by
          rw [hc1] at hx; cases hx
          simp [setLoading, hq]), Element.modifyAt_same_id]
      rfl
  simp only [searchAndRender.enter, h1]
  rw [h2 _ _ hm1, Element.modifyAt_twice]
  rfl

/-- For a form outside the container, the steps of `searchAndRender` after the
`await` are those of `searchAndRender.after` on the main region and the form. -/
theorem leave_detached (c m f : Element) (pm : List Nat) (results : Option (List Launch))
    (q : String) (hm : c.getAt pm = some m) :
    searchAndRender.leave c pm (some (.detached f)) results q
      = ((c.modifyAt pm (fun x => (searchAndRender.after x (some f) results q).1.1),
          (searchAndRender.after m (some f) results q).1.2.map FormRef.detached),
          (searchAndRender.after m (some f) results q).2) := by
  have h1 : removeIn c pm (.cls "loading") (some (.detached f))
      = (c.modifyAt pm (fun x => x.removeFirst (.cls "loading")), some (.detached f)) := by
    cases hp : m.pathOf (.cls "loading") with
    | none =>
      have h0 : m.countAll (.cls "loading") = 0 :=
        Node.countList_zero_of_pathOfList _ m.children hp
      have : c.modifyAt pm (fun x => x.removeFirst (.cls "loading")) = c := by
        rw [Element.modifyAt_congr_of_getAt c pm _ (fun x => x) (fun x hx => by
          rw [hm] at hx; cases hx
          exact Element.removeFirst_of_count_zero _ m h0), Element.modifyAt_same_id]
      simp [removeIn, hm, hp, this]
    | some r => simp [removeIn, hm, hp]
  have h2 : setNotLoadingIn c pm (some (.detached f))
      = (c.modifyAt pm (fun x => x.removeFirst (.cls "loading")),
          some (.detached (enableButton f))) := by
    simp only [setNotLoadingIn, h1]
    rfl
  simp only [searchAndRender.leave, h2]
  cases hc : createSearchResults results q with
  | error e =>
    simp only [searchAndRender.after, hc]
    rfl
  | ok table =>
    simp only [searchAndRender.after, hc, Element.modifyAt_twice]
    rfl

/-- For a form outside the container, a run of `searchAndRender` that resolves
is `searchAndRender.before` and then `searchAndRender.after` on the main region
and the form. -/
theorem searchAndRender_detached (parent mainEl f : Element) (pm : List Nat) (q : String)
    (results : Option (List Launch))
    (hm : parent.pathOf (.tag "main") = some pm)
    (hq : parent.querySelector (.tag "main") = some mainEl) :
    (searchAndRender parent (some (.detached f)) q (.resolved results)).parentElement
        = parent.modifyAt pm (fun x =>
            (searchAndRender.after (searchAndRender.before x (some f)).1
              (searchAndRender.before x (some f)).2 results q).1.1)
      ∧ (searchAndRender parent (some (.detached f)) q (.resolved results)).searchForm
          = (searchAndRender.after (searchAndRender.before mainEl (some f)).1
              (searchAndRender.before mainEl (some f)).2 results q).1.2.map FormRef.detached
      ∧ (searchAndRender parent (some (.detached f)) q (.resolved results)).result
          = (searchAndRender.after (searchAndRender.before mainEl (some f)).1
              (searchAndRender.before mainEl (some f)).2 results q).2 := by
  have hmain : parent.getAt pm = some mainEl := by rw [Element.getAt_pathOf parent _ pm hm, hq]
  have hrun := searchAndRender_resolved parent pm (some (.detached f)) q results hm
  have h1 := enter_detached parent mainEl f pm hmain
  have hb : ∀ x : Element, (searchAndRender.before x (some f)).2 = some (disableButton f) :=
    fun _ => rfl
  rw [hb] at h1
  have hm1 : (parent.modifyAt pm (fun x => (searchAndRender.before x (some f)).1)).getAt pm
      = some (searchAndRender.before mainEl (some f)).1 := by
    simp [Element.getAt_modifyAt_same, hmain]
  have h2 := leave_detached _ _ (disableButton f) pm results q hm1
  rw [h1] at hrun
  simp only [Option.map_some'] at hrun
  rw [h2] at hrun
  simp only at hrun
  rw [hrun]
  simp only [hb, Element.modifyAt_twice]
  exact ⟨trivial, trivial, trivial⟩

/-! ## The search flow and the loading state -/

/-- C6: end-to-end search. `searchAndRender(container, form, q)`, run alone on a
container whose main region holds at most one results subtree and no loading
indicator, with a form that is an element of its own or an element inside the
container, has a button and holds no results subtree: (a, b) while
`searchLaunches` is pending the main region holds one loading indicator and no
results subtree, and the first button of the form is disabled; (c)
`searchLaunches` is called once, with `q`; (d) when it resolves with a list `rs`
the flow ends normally, the main region holds no loading indicator and one
results subtree, its last child, which is `createSearchResults(rs, q)`, and the
first button of the form is not disabled. -/
theorem C6_search_end_to_end (parent mainEl form : Element) (pm : List Nat) (ref : FormRef)
    (q : String) (rs : List Launch)
    (hm : parent.pathOf (.tag "main") = some pm)
    (hq : parent.querySelector (.tag "main") = some mainEl)
    (hr : mainEl.countAll (.cls "searchResults") ≤ 1)
    (hl : mainEl.countAll (.cls "loading") = 0)
    (hf : ref.get parent = some form)
    (hb : (form.querySelector (.tag "button")).isSome = true)
    (hc : form.countAll (.cls "searchResults") = 0) :
    (∃ (p1 m1 f1 : Element) (ref1 : FormRef),
        searchAndRender.pending parent (some ref) q = some (p1, some ref1, [q])
        ∧ p1.getAt pm = some m1
        ∧ m1.countAll (.cls "loading") = 1
        ∧ m1.countAll (.cls "searchResults") = 0
        ∧ ref1.get p1 = some f1
        ∧ buttonDisabled (some f1) = true)
      ∧ (searchAndRender parent (some ref) q (.resolved (some rs))).calls = [q]
      ∧ (searchAndRender parent (some ref) q (.resolved (some rs))).result = .ok ()
      ∧ (∃ (m2 table f2 : Element) (rest : List Node) (ref2 : FormRef),
          (searchAndRender parent (some ref) q (.resolved (some rs))).parentElement.getAt pm
            = some m2
          ∧ createSearchResults (some rs) q = .ok table
          ∧ m2.children = rest ++ [table.toNode]
          ∧ m2.countAll (.cls "loading") = 0
          ∧ m2.countAll (.cls "searchResults") = 1
          ∧ (searchAndRender parent (some ref) q (.resolved (some rs))).searchForm = some ref2
          ∧ ref2.get (searchAndRender parent (some ref) q (.resolved (some rs))).parentElement
              = some f2
          ∧ buttonDisabled (some f2) = false) := by
  have hmain : parent.getAt pm = some mainEl := by rw [Element.getAt_pathOf parent _ pm hm, hq]
  obtain ⟨c1, m1, f0, f1, ref1, a1, a2, a3, a4, a5, a6, a7⟩ :=
    enter_spec parent mainEl form pm ref hmain hf (by omega)
  have hf0 : f0 = form := a7 hc
  subst hf0
  have hres0 : m1.countAll (.cls "searchResults") = 0 := by
    rw [a4]; exact Element.countAll_removeFirst_zero _ mainEl hr
  obtain ⟨c2, m2, m3, f2, ref2, res, b1, b2, b3, b4, b5, b6, b7⟩ :=
    leave_spec c1 m1 (disableButton f1) pm ref1 (some rs) q a2 a5 (by omega)
  obtain ⟨table, htable⟩ := createSearchResults_list rs q
  obtain ⟨hres, hm2⟩ := b7 table htable
  have hrun := searchAndRender_resolved parent pm (some ref) q (some rs) hm
  rw [a1] at hrun
  simp only at hrun
  rw [b1] at hrun
  simp only at hrun
  refine ⟨⟨c1, m1, disableButton f1, ref1, ?_, a2, a3, hres0, a5, ?_⟩, ?_, ?_,
    ⟨m2, table, f2, m3.children, ref2, ?_, htable, ?_, b3, ?_, ?_, ?_, b5⟩⟩
  · rw [searchAndRender_pending parent pm (some ref) q hm, a1]
  · rw [buttonDisabled_disableButton, sameButton_isSome _ _ a6]; exact hb
  · rw [hrun]
  · rw [hrun]; exact hres
  · rw [hrun]; exact b2
  · rw [hm2]; rfl
  · rw [hm2, Element.countAll_appendChild, (count_createSearchResults _ _ _ htable).1]
    omega
  · rw [hrun]
  · rw [hrun]; exact b4

theorem C6_search_end_to_end_witness :
    (∃ (p1 m1 f1 : Element) (ref1 : FormRef),
        searchAndRender.pending searchedBody (some (.attached [0, 1])) "Falcon"
          = some (p1, some ref1, ["Falcon"])
        ∧ p1.getAt [0] = some m1
        ∧ m1.countAll (.cls "loading") = 1
        ∧ m1.countAll (.cls "searchResults") = 0
        ∧ ref1.get p1 = some f1
        ∧ buttonDisabled (some f1) = true)
      ∧ (searchAndRender searchedBody (some (.attached [0, 1])) "Falcon"
          (.resolved (some [falcon9]))).calls = ["Falcon"]
      ∧ (searchAndRender searchedBody (some (.attached [0, 1])) "Falcon"
          (.resolved (some [falcon9]))).result = .ok ()
      ∧ (∃ (m2 table f2 : Element) (rest : List Node) (ref2 : FormRef),
          (searchAndRender searchedBody (some (.attached [0, 1])) "Falcon"
            (.resolved (some [falcon9]))).parentElement.getAt [0] = some m2
          ∧ createSearchResults (some [falcon9]) "Falcon" = .ok table
          ∧ m2.children = rest ++ [table.toNode]
          ∧ m2.countAll (.cls "loading") = 0
          ∧ m2.countAll (.cls "searchResults") = 1
          ∧ (searchAndRender searchedBody (some (.attached [0, 1])) "Falcon"
              (.resolved (some [falcon9]))).searchForm = some ref2
          ∧ ref2.get (searchAndRender searchedBody (some (.attached [0, 1])) "Falcon"
              (.resolved (some [falcon9]))).parentElement = some f2
          ∧ buttonDisabled (some f2) = false) :=
  C6_search_end_to_end searchedBody searchedMain (renderSearchForm none) [0]
    (.attached [0, 1]) "Falcon" [falcon9] (by decide) rfl (by decide) (by decide) rfl rfl
    (by decide)

/-- C2, amended: when the promise of the collaborator resolves, with a list of
records, a record or `null`, the flow leaves the loading state. After
`searchAndRender` on a container whose main region held at most one loading
indicator, with a form that is an element of its own or an element inside the
container, the main region holds no loading indicator and the first button of
the form is not disabled; after `renderDetails` on a region that held at most
one loading indicator, the region holds none. When the promise rejects, the
flow ends at the `await`: the region holds one loading indicator and, for
`searchAndRender`, the first button of the form, when it has one, is disabled.
For `renderDetails` the nodes `el` adds for the stray attribute map are text
nodes, `texts`, or none. -/
theorem C2_loading_left_when_resolved (texts : List String)
    (parent mainEl form region : Element) (pm : List Nat) (ref : FormRef)
    (q id reason : String) (results : Option (List Launch)) (result : Option Launch)
    (hm : parent.pathOf (.tag "main") = some pm)
    (hq : parent.querySelector (.tag "main") = some mainEl)
    (hl : mainEl.countAll (.cls "loading") ≤ 1)
    (hf : ref.get parent = some form)
    (hr : region.countAll (.cls "loading") ≤ 1) :
    (∃ (m2 f2 : Element) (ref2 : FormRef),
        (searchAndRender parent (some ref) q (.resolved results)).parentElement.getAt pm
          = some m2
        ∧ m2.countAll (.cls "loading") = 0
        ∧ (searchAndRender parent (some ref) q (.resolved results)).searchForm = some ref2
        ∧ ref2.get (searchAndRender parent (some ref) q (.resolved results)).parentElement
            = some f2
        ∧ buttonDisabled (some f2) = false)
      ∧ (renderDetails (texts.map Node.text) region id (.resolved result)).parentElement.countAll
          (.cls "loading") = 0
      ∧ (∃ (m1 f1 : Element) (ref1 : FormRef),
        (searchAndRender parent (some ref) q (.rejected reason)).parentElement.getAt pm
          = some m1
        ∧ m1.countAll (.cls "loading") = 1
        ∧ (searchAndRender parent (some ref) q (.rejected reason)).searchForm = some ref1
        ∧ ref1.get (searchAndRender parent (some ref) q (.rejected reason)).parentElement
            = some f1
        ∧ buttonDisabled (some f1) = (f1.querySelector (.tag "button")).isSome)
      ∧ (renderDetails (texts.map Node.text) region id (.rejected reason)).parentElement.countAll
          (.cls "loading") = 1 := by
  have hmain : parent.getAt pm = some mainEl := by rw [Element.getAt_pathOf parent _ pm hm, hq]
  obtain ⟨c1, m1, f0, f1, ref1, a1, a2, a3, a4, a5, a6, a7⟩ :=
    enter_spec parent mainEl form pm ref hmain hf hl
  obtain ⟨c2, m2, m3, f2, ref2, res, b1, b2, b3, b4, b5, b6, b7⟩ :=
    leave_spec c1 m1 (disableButton f1) pm ref1 results q a2 a5 (by omega)
  have hrun := searchAndRender_resolved parent pm (some ref) q results hm
  rw [a1] at hrun
  simp only at hrun
  rw [b1] at hrun
  simp only at hrun
  have hrej := searchAndRender_rejected parent pm (some ref) q reason hm
  rw [a1] at hrej
  simp only at hrej
  refine ⟨⟨m2, f2, ref2, ?_, b3, ?_, ?_, b5⟩, ?_, ⟨m1, disableButton f1, ref1, ?_, a3, ?_, ?_, ?_⟩,
    ?_⟩
  · rw [hrun]; exact b2
  · rw [hrun]
  · rw [hrun]; exact b4
  · have h0 := Element.countAll_removeFirst_zero (.cls "loading") region hr
    cases result with
    | none =>
      rw [renderDetails_null]
      simp only [Element.countAll_appendChild, h0]
      rfl
    | some r =>
      rw [renderDetails_record]
      simp only [Element.countAll_appendChild, h0, count_details_loading, countList_texts]
  · rw [hrej]; exact a2
  · rw [hrej]
  · rw [hrej]; exact a5
  · rw [buttonDisabled_disableButton, querySelector_disableButton]
  · simp only [renderDetails]
    exact setLoading_count_loading region none hr

theorem C2_loading_left_when_resolved_witness :
    (∃ (m2 f2 : Element) (ref2 : FormRef),
        (searchAndRender searchedBody (some (.attached [0, 1])) "Falcon"
          (.resolved none)).parentElement.getAt [0] = some m2
        ∧ m2.countAll (.cls "loading") = 0
        ∧ (searchAndRender searchedBody (some (.attached [0, 1])) "Falcon"
            (.resolved none)).searchForm = some ref2
        ∧ ref2.get (searchAndRender searchedBody (some (.attached [0, 1])) "Falcon"
            (.resolved none)).parentElement = some f2
        ∧ buttonDisabled (some f2) = false)
      ∧ (renderDetails (["x"].map Node.text) frontpageBody "42"
          (.resolved (some falcon9))).parentElement.countAll (.cls "loading") = 0
      ∧ (∃ (m1 f1 : Element) (ref1 : FormRef),
        (searchAndRender searchedBody (some (.attached [0, 1])) "Falcon"
          (.rejected "NetworkError")).parentElement.getAt [0] = some m1
        ∧ m1.countAll (.cls "loading") = 1
        ∧ (searchAndRender searchedBody (some (.attached [0, 1])) "Falcon"
            (.rejected "NetworkError")).searchForm = some ref1
        ∧ ref1.get (searchAndRender searchedBody (some (.attached [0, 1])) "Falcon"
            (.rejected "NetworkError")).parentElement = some f1
        ∧ buttonDisabled (some f1) = (f1.querySelector (.tag "button")).isSome)
      ∧ (renderDetails (["x"].map Node.text) frontpageBody "42"
          (.rejected "NetworkError")).parentElement.countAll (.cls "loading") = 1 :=
  C2_loading_left_when_resolved ["x"] searchedBody searchedMain (renderSearchForm none)
    frontpageBody [0] (.attached [0, 1]) "Falcon" "42" "NetworkError" none (some falcon9)
    (by decide) rfl (by decide) rfl (by decide)

/-- C2, as stated, fails. When the promise rejects, the rejection is raised at
the `await`, `setNotLoading` is not reached, and the flow ends with the loading
indicator in the region and, for `searchAndRender`, the button of the form,
which is inside the container, disabled. And when the main region holds two
loading indicators beforehand, one of them is left after a search that
resolves. -/
theorem C2_rejected_stays_loading :
    (match (searchAndRender frontpageBody (some (.attached [0, 1])) "Falcon"
        (.rejected "NetworkError")).result with
      | .error _ => true
      | .ok _ => false) = true
      ∧ ((searchAndRender frontpageBody (some (.attached [0, 1])) "Falcon"
          (.rejected "NetworkError")).parentElement.querySelector (.tag "main")).map
            (fun m => m.countAll (.cls "loading")) = some 1
      ∧ (searchAndRender frontpageBody (some (.attached [0, 1])) "Falcon"
          (.rejected "NetworkError")).parentElement.countAll (.tagAttr "button" "disabled") = 1
      ∧ (renderDetails [] frontpageBody "42" (.rejected "NetworkError")).parentElement.countAll
          (.cls "loading") = 1
      ∧ ((searchAndRender twoIndicators (some (.detached (renderSearchForm none))) "Falcon"
          (.resolved (some []))).parentElement.querySelector (.tag "main")).map
            (fun m => m.countAll (.cls "loading")) = some 1 := by
  refine ⟨rfl, ?_, ?_, ?_, ?_⟩ <;> decide

end Ui
